import Mathlib

/-!
tclUnixCompat.c: packing of passwd / group / hostent records into a scratch buffer

A shallow embedding of `unix/tclUnixCompat.c` (CopyArray, CopyString, CopyHostent,
CopyPwd, CopyGrp and the lookup wrappers) together with theorems about it.

Modelling conventions.

* C `int` is 32 bits wide.  An `int` value is an `Int`, and every result of
  `int` arithmetic and every conversion to `int` is reduced by `wrapInt` to the
  range `[INT_MIN, INT_MAX]` modulo 2^32: the running length `len` of the
  packers wraps for a source of 2^31 bytes or more, as it does in the compiled
  code.  Addresses are unbounded integers.
* `sizeof(char *)` is not fixed by the source; it is the parameter `sz`.
* Source strings and arrays live in storage owned by the C library, which the
  copy routines only read.  A source string is represented by its characters
  (the bytes before the terminating NUL), a source array by the list of the
  objects its non-NULL entries point to.
* The destination is byte addressed memory `Mem`.  It is not bounded by
  `buflen`: a store outside `[buf, buf + buflen)` is performed and recorded, so
  that staying inside the buffer is a property to be proved, not an assumption.
-/

namespace TclUnixCompat

/-! ## Data model -/

/-- One byte of character or address data. -/
abbrev Byte := Fin 256

/-- The characters of a NUL-terminated string, terminator excluded. -/
abbrev CStr := List Byte

/-- The bytes of an object an array entry points to: the characters of a string
(terminator excluded) or the bytes of a fixed-size blob. -/
abbrev Obj := List Byte

/-- C `strlen`. -/
def strlen (s : CStr) : Nat := s.length

/-- A pointer held in memory or in a record after a copy routine ran: `none` is
NULL, `some a` is the address `a`. -/
abbrev Addr := Option Int

/-- Contents of one byte of destination memory.  A stored pointer occupies
`sizeof(char *)` consecutive bytes; byte `k` of a stored pointer `p` is
`ptr p k`. -/
inductive MemVal where
  | undef
  | byte (b : Byte)
  | ptr (p : Addr) (k : Nat)
deriving DecidableEq, Repr

/-- Destination memory: the contents of every address and the list of the
addresses stored to so far, most recent first. -/
structure Mem where
  cells : Int → MemVal
  log : List Int

/-- Store one byte. -/
def Mem.store (m : Mem) (a : Int) (v : MemVal) : Mem :=
  { cells := fun x => if x = a then v else m.cells x, log := a :: m.log }

/-- Store consecutive bytes starting at `a`. -/
def Mem.storeList (m : Mem) (a : Int) : List MemVal → Mem
  | [] => m
  | v :: vs => (m.store a v).storeList (a + 1) vs

/-- Read `n` consecutive bytes starting at `a`. -/
def Mem.read (m : Mem) (a : Int) (n : Nat) : List MemVal :=
  (List.range n).map fun (k : Nat) => m.cells (a + (k : Int))

/-- The bytes of a string followed by its terminator, as memory contents. -/
def cstrBytes (s : CStr) : List MemVal := s.map MemVal.byte ++ [MemVal.byte 0]

/-- The first `n` bytes of an object as memory contents; bytes past the end of
the object are indeterminate. -/
def objBytes (e : Obj) (n : Nat) : List MemVal :=
  (List.range n).map fun k =>
    match e.get? k with
    | some b => MemVal.byte b
    | none => MemVal.undef

/-- The bytes of a stored pointer. -/
def ptrBytes (sz : Nat) (p : Addr) : List MemVal := (List.range sz).map (MemVal.ptr p)

/-- C `strcpy(dst, s)`. -/
def strcpy (m : Mem) (dst : Int) (s : CStr) : Mem := m.storeList dst (cstrBytes s)

/-- C `memcpy(dst, e, n)`. -/
def memcpy (m : Mem) (dst : Int) (e : Obj) (n : Nat) : Mem := m.storeList dst (objBytes e n)

/-- The assignment `*(char **)a = p`. -/
def storePtr (sz : Nat) (m : Mem) (a : Int) (p : Addr) : Mem := m.storeList a (ptrBytes sz p)

/-- Read a `char *` stored at `a`: `some p` when the `sz` bytes at `a` are the
bytes of the pointer `p`, `none` when they are not a stored pointer. -/
def loadPtr (sz : Nat) (m : Mem) (a : Int) : Option Addr :=
  match m.cells a with
  | MemVal.ptr p _ => if m.read a sz = ptrBytes sz p then some p else none
  | _ => none

/-- Read the NUL-terminated string at `a`, looking at no more than `fuel` bytes:
`none` when a byte that is not character data comes first or no terminator is
found. -/
def readCStr (m : Mem) (a : Int) : Nat → Option CStr
  | 0 => none
  | fuel + 1 =>
    match m.cells a with
    | MemVal.byte b =>
      if b = 0 then some [] else (readCStr m (a + 1) fuel).map (fun s => b :: s)
    | _ => none

/-! ## Buffer packer -/

/-- The largest value of a C `int` (32 bits). -/
def INT_MAX : Int := 2147483647

/-- The smallest value of a C `int` (32 bits). -/
def INT_MIN : Int := -2147483648

/-- The `int` that results from an arithmetic value: conversion to `int` and
`int` overflow wrap modulo 2^32. -/
def wrapInt (x : Int) : Int := (x + 2147483648) % 4294967296 - 2147483648

/-- The test `(sizeof(char *)*(i + 1)) > buflen` of CopyArray.  The left side has
type `size_t`, so `buflen` is converted to `size_t`: for `buflen >= 0` this is
the comparison of the two numbers, and a negative `buflen` becomes a value above
every header length of an array that fits in memory, so the test is false. -/
def headerExceeds (sz i : Nat) (buflen : Int) : Bool :=
  decide (0 ≤ buflen) && decide (((sz * (i + 1) : Nat) : Int) > buflen)

/-- The body of the second `for` loop of CopyArray, from index `j` on: `src` are
the remaining elements, `len` and `p` the loop variables.  `len` is an `int`:
`len += strlen(src[j]) + 1` and `len += elsize` wrap.  After the last element,
`new[j] = NULL` and `len` is returned. -/
def CopyArray.loop (sz : Nat) (elsize : Int) (buf buflen : Int) :
    List Obj → Nat → Int → Int → Mem → Int × Mem
  | [], j, len, _, m => (len, storePtr sz m (buf + ((sz * j : Nat) : Int)) none)
  | e :: rest, j, len, p, m =>
    let len1 : Int :=
      if elsize < 0 then wrapInt (len + ((strlen e : Int) + 1)) else wrapInt (len + elsize)
    if len1 > buflen then (-1, m)
    else
      let m1 := if elsize < 0 then strcpy m p e else memcpy m p e elsize.toNat
      let m2 := storePtr sz m1 (buf + ((sz * j : Nat) : Int)) (some p)
      CopyArray.loop sz elsize buf buflen rest (j + 1) len1 (buf + len1) m2

/-- CopyArray(src, elsize, buf, buflen): the value returned and the memory
afterwards. -/
def CopyArray (sz : Nat) (src : Option (List Obj)) (elsize : Int) (buf buflen : Int)
    (m : Mem) : Int × Mem :=
  match src with
  | none => (0, m)
  | some a =>
    let i := a.length
    if headerExceeds sz i buflen then (-1, m)
    else
      let len : Int := wrapInt ((sz * (i + 1) : Nat) : Int)
      let p : Int := buf + ((sz * (i + 1) : Nat) : Int)
      CopyArray.loop sz elsize buf buflen a 0 len p m

/-- CopyString(src, buf, buflen): the value returned and the memory afterwards.
`len` is an `int`: `len += strlen(src) + 1` wraps. -/
def CopyString (src : Option CStr) (buf buflen : Int) (m : Mem) : Int × Mem :=
  match src with
  | none => (0, m)
  | some s =>
    let len : Int := wrapInt (0 + ((strlen s : Int) + 1))
    if len > buflen then (-1, m) else (len, strcpy m buf s)

/-! ## Records -/

/-- A `char *` or `char **` field of a record: NULL, a pointer into storage
owned by the C library (represented by what it points to), or an address in
destination memory. -/
inductive Ref (α : Type) where
  | null
  | lib (v : α)
  | scratch (a : Int)
deriving DecidableEq, Repr

/-- The field value of a record as handed out by the C library. -/
def Ref.ofSrc {α : Type} : Option α → Ref α
  | none => Ref.null
  | some v => Ref.lib v

/-- The value `(copied > 0) ? p : NULL` assigned to a field. -/
def rewritten {α : Type} (copied p : Int) : Ref α :=
  if copied > 0 then Ref.scratch p else Ref.null

/-- The fields of `struct passwd`; `S` is the representation of `char *`. -/
structure passwd (S : Type) where
  pw_name : S
  pw_passwd : S
  pw_uid : Nat
  pw_gid : Nat
  pw_gecos : S
  pw_dir : S
  pw_shell : S
deriving DecidableEq, Repr

/-- The fields of `struct group`; `S` represents `char *`, `A` represents
`char **`. -/
structure group (S A : Type) where
  gr_name : S
  gr_passwd : S
  gr_gid : Nat
  gr_mem : A
deriving DecidableEq, Repr

/-- The fields of `struct hostent`; `S` represents `char *`, `A` represents
`char **`. -/
structure hostent (S A : Type) where
  h_name : S
  h_aliases : A
  h_addrtype : Int
  h_length : Int
  h_addr_list : A
deriving DecidableEq, Repr

/-- A passwd record as the C library hands it out. -/
abbrev PasswdSrc := passwd (Option CStr)
/-- A passwd record while and after CopyPwd rewrites it. -/
abbrev PasswdRec := passwd (Ref CStr)
/-- A group record as the C library hands it out. -/
abbrev GroupSrc := group (Option CStr) (Option (List Obj))
/-- A group record while and after CopyGrp rewrites it. -/
abbrev GroupRec := group (Ref CStr) (Ref (List Obj))
/-- A host record as the C library hands it out. -/
abbrev HostentSrc := hostent (Option CStr) (Option (List Obj))
/-- A host record while and after CopyHostent rewrites it. -/
abbrev HostentRec := hostent (Ref CStr) (Ref (List Obj))

/-- The record `*tgtPtr` on entry to CopyPwd. -/
def passwd.entry (t : PasswdSrc) : PasswdRec :=
  { pw_name := Ref.ofSrc t.pw_name, pw_passwd := Ref.ofSrc t.pw_passwd, pw_uid := t.pw_uid,
    pw_gid := t.pw_gid, pw_gecos := Ref.ofSrc t.pw_gecos, pw_dir := Ref.ofSrc t.pw_dir,
    pw_shell := Ref.ofSrc t.pw_shell }

/-- The record `*tgtPtr` on entry to CopyGrp. -/
def group.entry (t : GroupSrc) : GroupRec :=
  { gr_name := Ref.ofSrc t.gr_name, gr_passwd := Ref.ofSrc t.gr_passwd, gr_gid := t.gr_gid,
    gr_mem := Ref.ofSrc t.gr_mem }

/-- The record `*tgtPtr` on entry to CopyHostent. -/
def hostent.entry (t : HostentSrc) : HostentRec :=
  { h_name := Ref.ofSrc t.h_name, h_aliases := Ref.ofSrc t.h_aliases, h_addrtype := t.h_addrtype,
    h_length := t.h_length, h_addr_list := Ref.ofSrc t.h_addr_list }

/-- The value of `ERANGE` (from errno.h). -/
def ERANGE : Int := 34

/-- The state the copy routines act on: destination memory and `errno`. -/
structure State where
  mem : Mem
  errno : Int

/-- What a record copier leaves behind: the value returned, the record
`*tgtPtr` and the state. -/
structure Outcome (R : Type) where
  ret : Int
  tgt : R
  st : State

/-! ## Record copiers -/

/-- CopyHostent(tgtPtr, buf, buflen). -/
def CopyHostent (sz : Nat) (tgt : HostentSrc) (buf buflen : Int) (st : State) :
    Outcome HostentRec :=
  let t0 : HostentRec := tgt.entry
  let p : Int := buf
  let len : Int := 0
  let r1 := CopyString tgt.h_name p (wrapInt (buflen - len)) st.mem
  if r1.1 = -1 then ⟨-1, t0, ⟨r1.2, ERANGE⟩⟩ else
  let t1 : HostentRec := { t0 with h_name := rewritten r1.1 p }
  let len : Int := wrapInt (len + r1.1)
  let p : Int := buf + len
  let r2 := CopyArray sz tgt.h_aliases (-1) p (wrapInt (buflen - len)) r1.2
  if r2.1 = -1 then ⟨-1, t1, ⟨r2.2, ERANGE⟩⟩ else
  let t2 : HostentRec := { t1 with h_aliases := rewritten r2.1 p }
  let len : Int := wrapInt (len + r2.1)
  let p : Int := p + len
  let r3 := CopyArray sz tgt.h_addr_list tgt.h_length p (wrapInt (buflen - len)) r2.2
  if r3.1 = -1 then ⟨-1, t2, ⟨r3.2, ERANGE⟩⟩ else
  let t3 : HostentRec := { t2 with h_addr_list := rewritten r3.1 p }
  ⟨0, t3, ⟨r3.2, st.errno⟩⟩

/-- CopyPwd(tgtPtr, buf, buflen). -/
def CopyPwd (tgt : PasswdSrc) (buf buflen : Int) (st : State) : Outcome PasswdRec :=
  let t0 : PasswdRec := tgt.entry
  let p : Int := buf
  let len : Int := 0
  let r1 := CopyString tgt.pw_name p (wrapInt (buflen - len)) st.mem
  if r1.1 = -1 then ⟨-1, t0, ⟨r1.2, ERANGE⟩⟩ else
  let t1 : PasswdRec := { t0 with pw_name := rewritten r1.1 p }
  let len : Int := wrapInt (len + r1.1)
  let p : Int := buf + len
  let r2 := CopyString tgt.pw_passwd p (wrapInt (buflen - len)) r1.2
  if r2.1 = -1 then ⟨-1, t1, ⟨r2.2, ERANGE⟩⟩ else
  let t2 : PasswdRec := { t1 with pw_passwd := rewritten r2.1 p }
  let len : Int := wrapInt (len + r2.1)
  let p : Int := buf + len
  let r3 := CopyString tgt.pw_dir p (wrapInt (buflen - len)) r2.2
  if r3.1 = -1 then ⟨-1, t2, ⟨r3.2, ERANGE⟩⟩ else
  let t3 : PasswdRec := { t2 with pw_dir := rewritten r3.1 p }
  let len : Int := wrapInt (len + r3.1)
  let p : Int := buf + len
  let r4 := CopyString tgt.pw_shell p (wrapInt (buflen - len)) r3.2
  if r4.1 = -1 then ⟨-1, t3, ⟨r4.2, ERANGE⟩⟩ else
  let t4 : PasswdRec := { t3 with pw_shell := rewritten r4.1 p }
  ⟨0, t4, ⟨r4.2, st.errno⟩⟩

/-- CopyGrp(tgtPtr, buf, buflen). -/
def CopyGrp (sz : Nat) (tgt : GroupSrc) (buf buflen : Int) (st : State) : Outcome GroupRec :=
  let t0 : GroupRec := tgt.entry
  let p : Int := buf
  let len : Int := 0
  let r1 := CopyString tgt.gr_name p (wrapInt (buflen - len)) st.mem
  if r1.1 = -1 then ⟨-1, t0, ⟨r1.2, ERANGE⟩⟩ else
  let t1 : GroupRec := { t0 with gr_name := rewritten r1.1 p }
  let len : Int := wrapInt (len + r1.1)
  let p : Int := buf + len
  let r2 := CopyString tgt.gr_passwd p (wrapInt (buflen - len)) r1.2
  if r2.1 = -1 then ⟨-1, t1, ⟨r2.2, ERANGE⟩⟩ else
  let t2 : GroupRec := { t1 with gr_passwd := rewritten r2.1 p }
  let len : Int := wrapInt (len + r2.1)
  let p : Int := buf + len
  let r3 := CopyArray sz tgt.gr_mem (-1) p (wrapInt (buflen - len)) r2.2
  if r3.1 = -1 then ⟨-1, t2, ⟨r3.2, ERANGE⟩⟩ else
  let t3 : GroupRec := { t2 with gr_mem := rewritten r3.1 p }
  ⟨0, t3, ⟨r3.2, st.errno⟩⟩

/-! ## Lookup wrappers: the status-plus-out-pointer branch -/

/-- What a reentrant primitive with the status-plus-out-pointer convention
(getpwnam_r, getpwuid_r, getgrnam_r, getgrgid_r with 5 arguments,
gethostbyname_r with 6, gethostbyaddr_r with 8) did: the status it returned, the
pointer it stored through its out-pointer argument (`none` is NULL) and the
contents it left in the thread-owned record. -/
structure ReentrantCall (R : Type) where
  status : Int
  outPtr : Option R
  tsdRecord : R

/-- TclpGetPwNam, branch HAVE_GETPWNAM_R_5: `some r` is a pointer to the
thread-owned record with contents `r`, `none` is NULL. -/
def TclpGetPwNam_R5 (call : ReentrantCall PasswdRec) : Option PasswdRec :=
  if call.status = 0 then some call.tsdRecord else none

/-- TclpGetPwUid, branch HAVE_GETPWUID_R_5. -/
def TclpGetPwUid_R5 (call : ReentrantCall PasswdRec) : Option PasswdRec :=
  if call.status = 0 then some call.tsdRecord else none

/-- TclpGetGrNam, branch HAVE_GETGRNAM_R_5. -/
def TclpGetGrNam_R5 (call : ReentrantCall GroupRec) : Option GroupRec :=
  if call.status = 0 then some call.tsdRecord else none

/-- TclpGetGrGid, branch HAVE_GETGRGID_R_5. -/
def TclpGetGrGid_R5 (call : ReentrantCall GroupRec) : Option GroupRec :=
  if call.status = 0 then some call.tsdRecord else none

/-- TclpGetHostByName, branch HAVE_GETHOSTBYNAME_R_6. -/
def TclpGetHostByName_R6 (call : ReentrantCall HostentRec) : Option HostentRec :=
  if call.status = 0 then some call.tsdRecord else none

/-- TclpGetHostByAddr, branch HAVE_GETHOSTBYADDR_R_8. -/
def TclpGetHostByAddr_R8 (call : ReentrantCall HostentRec) : Option HostentRec :=
  if call.status = 0 then some call.tsdRecord else none

/-! ## Lookup wrappers: the lock-and-copy branch -/

/-- The steps of a lock-and-copy lookup that matter for the lock discipline:
`Tcl_MutexLock(&compatLock)`, the call of the classic primitive (getpwnam,
getpwuid, getgrnam, getgrgid, gethostbyname, gethostbyaddr), the structure
assignment `tsdPtr->pwd = *pwPtr`, the call of the record copier,
`Tcl_MutexUnlock(&compatLock)` and the `return`. -/
inductive Event where
  | lock
  | classicCall
  | shallowCopy
  | deepCopy
  | unlock
  | ret
deriving DecidableEq, Repr

/-- The lock `compatLock` as the calling thread sees it, and the events so far in
the order they happened. -/
structure Run where
  held : Bool
  trace : List Event
deriving DecidableEq, Repr

/-- The calling thread on entry to a lookup: it does not hold the lock. -/
def Run.start : Run := { held := false, trace := [] }

/-- Record one event. -/
def Run.emit (r : Run) (e : Event) : Run := { r with trace := r.trace ++ [e] }

/-- `Tcl_MutexLock(&compatLock)`. -/
def Tcl_MutexLock (r : Run) : Run := { held := true, trace := r.trace ++ [Event.lock] }

/-- `Tcl_MutexUnlock(&compatLock)`. -/
def Tcl_MutexUnlock (r : Run) : Run := { held := false, trace := r.trace ++ [Event.unlock] }

/-- What a lock-and-copy lookup leaves behind: the pointer it returns (`none` is
NULL, `some r` is the address of the thread-owned record, whose contents are
`r`), the thread-owned record, the state (the thread-owned buffer is part of its
memory) and the lock with the events. -/
structure Lookup (R : Type) where
  result : Option R
  tsdRecord : R
  st : State
  run : Run

/-- TclpGetPwNam, lock-and-copy branch.  `getpwnam` is what the classic
primitive returned, `tsdPwd` the contents of `tsdPtr->pwd` on entry, `pbuf` the
address of `tsdPtr->pbuf`, whose size is 2048. -/
def TclpGetPwNam_fallback (getpwnam : Option PasswdSrc) (tsdPwd : PasswdRec) (pbuf : Int)
    (st : State) : Lookup PasswdRec :=
  let r := Tcl_MutexLock Run.start
  let r := r.emit Event.classicCall
  let body : Option PasswdRec × PasswdRec × State × Run :=
    match getpwnam with
    | none => (none, tsdPwd, st, r)
    | some pw =>
      let r := r.emit Event.shallowCopy
      let o := CopyPwd pw pbuf 2048 st
      let r := r.emit Event.deepCopy
      (if o.ret = -1 then none else some o.tgt, o.tgt, o.st, r)
  let r := Tcl_MutexUnlock body.2.2.2
  { result := body.1, tsdRecord := body.2.1, st := body.2.2.1, run := r.emit Event.ret }

/-- TclpGetPwUid, lock-and-copy branch. -/
def TclpGetPwUid_fallback (getpwuid : Option PasswdSrc) (tsdPwd : PasswdRec) (pbuf : Int)
    (st : State) : Lookup PasswdRec :=
  let r := Tcl_MutexLock Run.start
  let r := r.emit Event.classicCall
  let body : Option PasswdRec × PasswdRec × State × Run :=
    match getpwuid with
    | none => (none, tsdPwd, st, r)
    | some pw =>
      let r := r.emit Event.shallowCopy
      let o := CopyPwd pw pbuf 2048 st
      let r := r.emit Event.deepCopy
      (if o.ret = -1 then none else some o.tgt, o.tgt, o.st, r)
  let r := Tcl_MutexUnlock body.2.2.2
  { result := body.1, tsdRecord := body.2.1, st := body.2.2.1, run := r.emit Event.ret }

/-- TclpGetGrNam, lock-and-copy branch; `gbuf` is the address of `tsdPtr->gbuf`. -/
def TclpGetGrNam_fallback (sz : Nat) (getgrnam : Option GroupSrc) (tsdGrp : GroupRec) (gbuf : Int)
    (st : State) : Lookup GroupRec :=
  let r := Tcl_MutexLock Run.start
  let r := r.emit Event.classicCall
  let body : Option GroupRec × GroupRec × State × Run :=
    match getgrnam with
    | none => (none, tsdGrp, st, r)
    | some gr =>
      let r := r.emit Event.shallowCopy
      let o := CopyGrp sz gr gbuf 2048 st
      let r := r.emit Event.deepCopy
      (if o.ret = -1 then none else some o.tgt, o.tgt, o.st, r)
  let r := Tcl_MutexUnlock body.2.2.2
  { result := body.1, tsdRecord := body.2.1, st := body.2.2.1, run := r.emit Event.ret }

/-- TclpGetGrGid, lock-and-copy branch. -/
def TclpGetGrGid_fallback (sz : Nat) (getgrgid : Option GroupSrc) (tsdGrp : GroupRec) (gbuf : Int)
    (st : State) : Lookup GroupRec :=
  let r := Tcl_MutexLock Run.start
  let r := r.emit Event.classicCall
  let body : Option GroupRec × GroupRec × State × Run :=
    match getgrgid with
    | none => (none, tsdGrp, st, r)
    | some gr =>
      let r := r.emit Event.shallowCopy
      let o := CopyGrp sz gr gbuf 2048 st
      let r := r.emit Event.deepCopy
      (if o.ret = -1 then none else some o.tgt, o.tgt, o.st, r)
  let r := Tcl_MutexUnlock body.2.2.2
  { result := body.1, tsdRecord := body.2.1, st := body.2.2.1, run := r.emit Event.ret }

/-- TclpGetHostByName, lock-and-copy branch; `hbuf` is the address of
`tsdPtr->hbuf`. -/
def TclpGetHostByName_fallback (sz : Nat) (gethostbyname : Option HostentSrc)
    (tsdHent : HostentRec) (hbuf : Int) (st : State) : Lookup HostentRec :=
  let r := Tcl_MutexLock Run.start
  let r := r.emit Event.classicCall
  let body : Option HostentRec × HostentRec × State × Run :=
    match gethostbyname with
    | none => (none, tsdHent, st, r)
    | some he =>
      let r := r.emit Event.shallowCopy
      let o := CopyHostent sz he hbuf 2048 st
      let r := r.emit Event.deepCopy
      (if o.ret = -1 then none else some o.tgt, o.tgt, o.st, r)
  let r := Tcl_MutexUnlock body.2.2.2
  { result := body.1, tsdRecord := body.2.1, st := body.2.2.1, run := r.emit Event.ret }

/-- TclpGetHostByAddr, lock-and-copy branch. -/
def TclpGetHostByAddr_fallback (sz : Nat) (gethostbyaddr : Option HostentSrc)
    (tsdHent : HostentRec) (hbuf : Int) (st : State) : Lookup HostentRec :=
  let r := Tcl_MutexLock Run.start
  let r := r.emit Event.classicCall
  let body : Option HostentRec × HostentRec × State × Run :=
    match gethostbyaddr with
    | none => (none, tsdHent, st, r)
    | some he =>
      let r := r.emit Event.shallowCopy
      let o := CopyHostent sz he hbuf 2048 st
      let r := r.emit Event.deepCopy
      (if o.ret = -1 then none else some o.tgt, o.tgt, o.st, r)
  let r := Tcl_MutexUnlock body.2.2.2
  { result := body.1, tsdRecord := body.2.1, st := body.2.2.1, run := r.emit Event.ret }

/-! ## The packers and `errno` -/

/-- CopyString as a step on the whole state: its body assigns to the destination
bytes only, `errno` is not assigned. -/
def CopyString.step (src : Option CStr) (buf buflen : Int) (st : State) : Int × State :=
  let r := CopyString src buf buflen st.mem
  (r.1, { st with mem := r.2 })

/-- CopyArray as a step on the whole state: its body assigns to the destination
bytes only, `errno` is not assigned. -/
def CopyArray.step (sz : Nat) (src : Option (List Obj)) (elsize : Int) (buf buflen : Int)
    (st : State) : Int × State :=
  let r := CopyArray sz src elsize buf buflen st.mem
  (r.1, { st with mem := r.2 })

/-! ## Specification vocabulary -/

/-- Every store that leads from `m` to `m'` is to an address in `S`, and the
contents of the addresses outside `S` are the same in `m'` as in `m`. -/
def StoresIn (m m' : Mem) (S : Int → Prop) : Prop :=
  (∃ w : List Int, m'.log = w ++ m.log ∧ ∀ x ∈ w, S x) ∧ ∀ x, ¬ S x → m'.cells x = m.cells x

/-- Bytes consumed by a string field: `strlen + 1`, or 0 when the field is NULL. -/
def strSize : Option CStr → Int
  | none => 0
  | some s => (strlen s : Int) + 1

/-- Bytes of payload of one array element: `strlen + 1` when `elsize < 0`,
`elsize` otherwise. -/
def elemSize (elsize : Int) (e : Obj) : Int :=
  if elsize < 0 then (strlen e : Int) + 1 else elsize

/-- Total payload of the elements of an array. -/
def payloadSize (elsize : Int) (a : List Obj) : Int := (a.map (elemSize elsize)).sum

/-- Bytes consumed by an array field: `(N+1)*sizeof(char*)` plus the payloads, or
0 when the field is NULL. -/
def arrSize (sz : Nat) (elsize : Int) : Option (List Obj) → Int
  | none => 0
  | some a => ((sz * (a.length + 1) : Nat) : Int) + payloadSize elsize a

/-- The payload bytes of one array element: the string with its terminator when
`elsize < 0`, the first `elsize` bytes of the blob otherwise. -/
def elemBytes (elsize : Int) (e : Obj) : List MemVal :=
  if elsize < 0 then cstrBytes e else objBytes e elsize.toNat

/-- Memory `m` holds at `a` a copy of the string `src` with its terminator. -/
def StrAt (m : Mem) (src : Option CStr) (a : Int) : Prop :=
  ∀ s, src = some s → m.read a (strlen s + 1) = cstrBytes s

/-- The addresses CopyArray's loop may store to, from index `j` and running
length `len` on: the table slots `j .. j + n` and the payload area, all below
the capacity. -/
def loopArea (sz : Nat) (elsize buf buflen : Int) (a : List Obj) (j : Nat) (len : Int) :
    Int → Prop :=
  fun x =>
    ((buf + ((sz * j : Nat) : Int) ≤ x ∧ x < buf + ((sz * (j + a.length + 1) : Nat) : Int)) ∨
      (buf + len ≤ x ∧ x < buf + len + payloadSize elsize a)) ∧ x < buf + buflen

/-- Memory `m` holds at `tbl` the flattened encoding of the array `a`: slot `k`
of the table holds the address of the payload of element `k`, which lies after
the `N + 1` slots and the payloads of the elements before it and holds the
element's bytes, and slot `N` holds NULL. -/
def ArrayAt (sz : Nat) (elsize : Int) (m : Mem) (a : List Obj) (tbl : Int) : Prop :=
  (∀ k (hk : k < a.length),
    loadPtr sz m (tbl + ((sz * k : Nat) : Int)) =
        some (some (tbl + ((sz * (a.length + 1) : Nat) : Int) + payloadSize elsize (a.take k))) ∧
      m.read (tbl + ((sz * (a.length + 1) : Nat) : Int) + payloadSize elsize (a.take k))
          (elemBytes elsize (a.get ⟨k, hk⟩)).length = elemBytes elsize (a.get ⟨k, hk⟩)) ∧
    loadPtr sz m (tbl + ((sz * a.length : Nat) : Int)) = some none

/-- Bytes consumed by the four string fields of a passwd record. -/
def pwdSize (t : PasswdSrc) : Int :=
  strSize t.pw_name + strSize t.pw_passwd + strSize t.pw_dir + strSize t.pw_shell

/-- Bytes consumed by the fields of a group record. -/
def grpSize (sz : Nat) (t : GroupSrc) : Int :=
  strSize t.gr_name + strSize t.gr_passwd + arrSize sz (-1) t.gr_mem

/-- Bytes consumed by the fields of a host record. -/
def hostSize (sz : Nat) (t : HostentSrc) : Int :=
  strSize t.h_name + arrSize sz (-1) t.h_aliases + arrSize sz t.h_length t.h_addr_list

/-- The string field `field`, rewritten from the source value `src`, is NULL
when `src` is absent and otherwise is the address `a`, where memory holds a
byte-for-byte copy of the source string followed by the terminator. -/
def StrCopiedAt (m : Mem) (src : Option CStr) (field : Ref CStr) (a : Int) : Prop :=
  match src with
  | none => field = Ref.null
  | some s => field = Ref.scratch a ∧ m.read a (strlen s + 1) = s.map MemVal.byte ++ [MemVal.byte 0]

/-- The array field `field`, rewritten from the source value `src`, is NULL when
`src` is absent and otherwise is the address `tbl` of a table whose slot `k`
holds the address of a copy of element `k` and whose slot `N` holds NULL. -/
def ArrCopiedAt (sz : Nat) (elsize : Int) (m : Mem) (src : Option (List Obj))
    (field : Ref (List Obj)) (tbl : Int) : Prop :=
  match src with
  | none => field = Ref.null
  | some a => field = Ref.scratch tbl ∧ ArrayAt sz elsize m a tbl

/-- The lock discipline of a trace: exactly one `lock` and one `unlock`; the
`lock` comes before the classic call and the classic call before the `unlock`;
the shallow copy and the deep copy, when they occur, come before the `unlock`;
and the trace ends with the `return`, after the `unlock`. -/
def LockDiscipline (tr : List Event) : Prop :=
  tr.count Event.lock = 1 ∧ tr.count Event.unlock = 1 ∧
  tr.indexOf Event.lock < tr.indexOf Event.classicCall ∧
  tr.indexOf Event.classicCall < tr.indexOf Event.unlock ∧
  (Event.shallowCopy ∈ tr → tr.indexOf Event.shallowCopy < tr.indexOf Event.unlock) ∧
  (Event.deepCopy ∈ tr → tr.indexOf Event.deepCopy < tr.indexOf Event.unlock) ∧
  tr.indexOf Event.unlock < tr.indexOf Event.ret ∧
  tr.getLast? = some Event.ret

/-- The result of a lock-and-copy lookup is right: it is NULL exactly when the
classic primitive returned NULL or the record copier returned -1 on its result,
and otherwise it is the thread-owned record as the copier left it. -/
def FallbackResult {S R : Type} (prim : Option S) (copier : S → Outcome R) (result : Option R) :
    Prop :=
  (result = none ↔ prim = none ∨ ∃ r, prim = some r ∧ (copier r).ret = -1) ∧
  ∀ r, prim = some r → (copier r).ret ≠ -1 → result = some (copier r).tgt

/-! ## Concrete inputs used to exercise the definitions -/

/-- Memory nothing has been stored to. -/
def Mem.blank : Mem := { cells := fun _ => MemVal.undef, log := [] }

/-- A state with blank memory and `errno = 0`. -/
def State.blank : State := { mem := Mem.blank, errno := 0 }

/-- Host record: name "a", no aliases, one 4-byte address. -/
def hostA : HostentSrc :=
  { h_name := some [97], h_aliases := some [], h_addrtype := 2, h_length := 4,
    h_addr_list := some [[127, 0, 0, 1]] }

/-- Host record: name "localhost", one alias "lh", 167 four-byte addresses. -/
def hostMany : HostentSrc :=
  { h_name := some [108, 111, 99, 97, 108, 104, 111, 115, 116], h_aliases := some [[108, 104]],
    h_addrtype := 2, h_length := 4, h_addr_list := some (List.replicate 167 [10, 0, 0, 1]) }

/-- Host record: name "ab", an empty alias list, 169 four-byte addresses. -/
def hostBig : HostentSrc :=
  { h_name := some [97, 98], h_aliases := some [], h_addrtype := 2, h_length := 4,
    h_addr_list := some (List.replicate 169 [10, 0, 0, 1]) }

/-- Passwd record of "root": password "x", home "/root", shell "/bin/sh". -/
def pwdRoot : PasswdSrc :=
  { pw_name := some [114, 111, 111, 116], pw_passwd := some [120], pw_uid := 0, pw_gid := 0,
    pw_gecos := some [114, 111, 111, 116], pw_dir := some [47, 114, 111, 111, 116],
    pw_shell := some [47, 98, 105, 110, 47, 115, 104] }

/-- Group record of "wheel": no password, members "root" and "ab". -/
def grpWheel : GroupSrc :=
  { gr_name := some [119, 104, 101, 101, 108], gr_passwd := none, gr_gid := 10,
    gr_mem := some [[114, 111, 111, 116], [97, 98]] }

/-- The thread-owned passwd record as an earlier lookup of "root" left it. -/
def stalePwd : PasswdRec :=
  { pw_name := Ref.scratch 0, pw_passwd := Ref.scratch 5, pw_uid := 0, pw_gid := 0,
    pw_gecos := Ref.null, pw_dir := Ref.scratch 7, pw_shell := Ref.scratch 13 }

/-- The thread-owned group record as an earlier lookup left it. -/
def staleGrp : GroupRec :=
  { gr_name := Ref.scratch 0, gr_passwd := Ref.null, gr_gid := 10, gr_mem := Ref.scratch 6 }

/-- The thread-owned host record as an earlier lookup left it. -/
def staleHost : HostentRec :=
  { h_name := Ref.scratch 0, h_aliases := Ref.scratch 2, h_addrtype := 2, h_length := 4,
    h_addr_list := Ref.scratch 10 }

/-- Passwd record with an empty password field: name "ab", password "",
home "/", shell "". -/
def pwdEmptyPw : PasswdSrc :=
  { pw_name := some [97, 98], pw_passwd := some [], pw_uid := 1000, pw_gid := 100,
    pw_gecos := none, pw_dir := some [47], pw_shell := some [] }

/-- Group record with no members: name "ab", password "", an empty member list. -/
def grpNoMembers : GroupSrc :=
  { gr_name := some [97, 98], gr_passwd := some [], gr_gid := 100, gr_mem := some [] }

/-- A string of 2^31 - 1 characters 'a'. -/
def hugeStr : CStr := List.replicate 2147483647 97

/-- Passwd record whose name has 2^31 - 1 characters; the other strings are
absent. -/
def pwdHuge : PasswdSrc :=
  { pw_name := some hugeStr, pw_passwd := none, pw_uid := 1000, pw_gid := 100,
    pw_gecos := none, pw_dir := none, pw_shell := none }

/-- A blob of 16 bytes. -/
def blob16 : Obj := [32, 1, 13, 184, 0, 0, 0, 0, 0, 0, 0, 0, 0, 0, 0, 1]

/-! ## Lemmas -/

theorem StoresIn.refl (m : Mem) (S : Int → Prop) : StoresIn m m S :=
  ⟨⟨[], by simp, by simp⟩, fun _ _ => rfl⟩

theorem StoresIn.trans {m₁ m₂ m₃ : Mem} {S : Int → Prop} (h₁ : StoresIn m₁ m₂ S)
    (h₂ : StoresIn m₂ m₃ S) : StoresIn m₁ m₃ S := by
  obtain ⟨⟨w₁, e₁, s₁⟩, f₁⟩ := h₁
  obtain ⟨⟨w₂, e₂, s₂⟩, f₂⟩ := h₂
  refine ⟨⟨w₂ ++ w₁, by rw [e₂, e₁, List.append_assoc], ?_⟩, fun x hx => ?_⟩
  · intro x hx
    rcases List.mem_append.mp hx with h | h
    · exact s₂ x h
    · exact s₁ x h
  · rw [f₂ x hx, f₁ x hx]

theorem StoresIn.mono {m m' : Mem} {S T : Int → Prop} (h : StoresIn m m' S)
    (hST : ∀ x, S x → T x) : StoresIn m m' T := by
  obtain ⟨⟨w, e, s⟩, f⟩ := h
  exact ⟨⟨w, e, fun x hx => hST x (s x hx)⟩, fun x hx => f x (fun hs => hx (hST x hs))⟩

theorem storeList_storesIn (m : Mem) (a : Int) (vs : List MemVal) :
    StoresIn m (m.storeList a vs) (fun x => a ≤ x ∧ x < a + (vs.length : Int)) := by
  induction vs generalizing m a with
  | nil => exact StoresIn.refl m _
  | cons v vs ih =>
    have h1 : StoresIn m (m.store a v) (fun x => a ≤ x ∧ x < a + ((v :: vs).length : Int)) := by
      refine ⟨⟨[a], rfl, ?_⟩, fun x hx => ?_⟩
      · intro x hx
        simp only [List.mem_singleton] at hx
        simp only [List.length_cons, Nat.cast_add, Nat.cast_one]
        omega
      · have hne : x ≠ a := by
          intro h
          apply hx
          simp only [List.length_cons, Nat.cast_add, Nat.cast_one]
          omega
        simp [Mem.store, hne]
    have h2 := (ih (m.store a v) (a + 1)).mono (T := fun x => a ≤ x ∧ x < a + ((v :: vs).length : Int))
      (by
        intro x hx
        simp only [List.length_cons, Nat.cast_add, Nat.cast_one]
        omega)
    exact h1.trans h2

theorem storeList_cells_at (m : Mem) (a : Int) (vs : List MemVal) (k : Nat) (hk : k < vs.length) :
    (m.storeList a vs).cells (a + (k : Int)) = vs.get ⟨k, hk⟩ := by
  induction vs generalizing m a k with
  | nil => simp at hk
  | cons v vs ih =>
    cases k with
    | zero =>
      have hf := (storeList_storesIn (m.store a v) (a + 1) vs).2 a (by omega)
      simp only [Mem.storeList, Nat.cast_zero, add_zero, List.get_eq_getElem,
        List.getElem_cons_zero]
      rw [hf]
      simp [Mem.store]
    | succ k =>
      have hk' : k < vs.length := by simpa using hk
      have := ih (m.store a v) (a + 1) k hk'
      simp only [Mem.storeList, Nat.cast_add, Nat.cast_one, List.get_eq_getElem,
        List.getElem_cons_succ]
      rw [show a + ((k : Int) + 1) = a + 1 + (k : Int) by ring, this]
      simp

theorem read_length (m : Mem) (a : Int) (n : Nat) : (m.read a n).length = n := by
  simp [Mem.read]

theorem read_storeList (m : Mem) (a : Int) (vs : List MemVal) :
    (m.storeList a vs).read a vs.length = vs := by
  apply List.ext_get
  · simp [Mem.read]
  · intro k h1 h2
    simp only [Mem.read, List.get_eq_getElem, List.getElem_map, List.getElem_range]
    have := storeList_cells_at m a vs k h2
    simpa using this

theorem read_congr {m m' : Mem} {a : Int} {n : Nat}
    (h : ∀ x, a ≤ x → x < a + (n : Int) → m'.cells x = m.cells x) :
    m'.read a n = m.read a n := by
  simp only [Mem.read]
  apply List.map_congr_left
  intro k hk
  have hk' : k < n := List.mem_range.mp hk
  exact h _ (by omega) (by omega)

theorem read_of_storesIn {m m' : Mem} {S : Int → Prop} (h : StoresIn m m' S) {a : Int} {n : Nat}
    (hd : ∀ x, a ≤ x → x < a + (n : Int) → ¬ S x) : m'.read a n = m.read a n :=
  read_congr (fun x h1 h2 => h.2 x (hd x h1 h2))

theorem ptrBytes_length (sz : Nat) (p : Addr) : (ptrBytes sz p).length = sz := by
  simp [ptrBytes]

theorem cstrBytes_length (s : CStr) : (cstrBytes s).length = strlen s + 1 := by
  simp [cstrBytes, strlen]

theorem objBytes_length (e : Obj) (n : Nat) : (objBytes e n).length = n := by
  simp [objBytes]

theorem loadPtr_of_read {sz : Nat} (hsz : 0 < sz) {m : Mem} {a : Int} {p : Addr}
    (h : m.read a sz = ptrBytes sz p) : loadPtr sz m a = some p := by
  have h0 : m.cells a = MemVal.ptr p 0 := by
    have := congrArg (fun l => l.get? 0) h
    simp only [Mem.read, ptrBytes, List.get?_eq_getElem?, List.getElem?_map] at this
    rw [List.getElem?_range hsz] at this
    simpa using this
  simp only [loadPtr, h0]
  simp [h]

theorem loadPtr_storePtr {sz : Nat} (hsz : 0 < sz) (m : Mem) (a : Int) (p : Addr) :
    loadPtr sz (storePtr sz m a p) a = some p := by
  apply loadPtr_of_read hsz
  have := read_storeList m a (ptrBytes sz p)
  rwa [ptrBytes_length] at this

theorem loadPtr_congr {sz : Nat} {m m' : Mem} {a : Int}
    (h : ∀ x, a ≤ x → x < a + (sz : Int) → m'.cells x = m.cells x) (hsz : 0 < sz) :
    loadPtr sz m' a = loadPtr sz m a := by
  have h0 : m'.cells a = m.cells a := h a (le_refl _) (by omega)
  simp only [loadPtr, h0, read_congr h]

theorem cells_of_read {m : Mem} {a : Int} {n : Nat} {vs : List MemVal} (h : m.read a n = vs)
    (k : Nat) (hk : k < n) : vs.get? k = some (m.cells (a + (k : Int))) := by
  subst h
  simp [Mem.read, List.getElem?_map, List.getElem?_range hk]

theorem read_succ (m : Mem) (a : Int) (n : Nat) :
    m.read a (n + 1) = m.cells a :: m.read (a + 1) n := by
  apply List.ext_get?
  intro k
  cases k with
  | zero => simp [Mem.read]
  | succ k =>
    by_cases hk : k < n
    · rw [cells_of_read rfl (k + 1) (by omega)]
      simp only [List.get?_cons_succ]
      rw [cells_of_read rfl k hk]
      congr 2
      push_cast
      ring
    · have h1 : (m.read a (n + 1)).get? (k + 1) = none := by
        apply List.get?_eq_none.mpr
        simp [read_length]; omega
      have h2 : (m.read (a + 1) n).get? k = none := by
        apply List.get?_eq_none.mpr
        simp [read_length]; omega
      simp only [List.get?_cons_succ, h1, h2]

theorem readCStr_of_read (m : Mem) (s : CStr) (a : Int) (hs : ∀ b ∈ s, b ≠ 0)
    (h : m.read a (strlen s + 1) = cstrBytes s) : readCStr m a (strlen s + 1) = some s := by
  induction s generalizing a with
  | nil =>
    have h' : m.read a (0 + 1) = [MemVal.byte 0] := h
    rw [read_succ] at h'
    have h0 : m.cells a = MemVal.byte 0 := by simpa using (List.cons.inj h').1
    show readCStr m a (0 + 1) = some []
    rw [readCStr, h0]
    simp
  | cons b s ih =>
    have hb : b ≠ 0 := hs b (by simp)
    have h' : m.read a ((strlen s + 1) + 1) = MemVal.byte b :: cstrBytes s := h
    rw [read_succ] at h'
    have h0 : m.cells a = MemVal.byte b := (List.cons.inj h').1
    have hrest : m.read (a + 1) (strlen s + 1) = cstrBytes s := (List.cons.inj h').2
    have := ih (a + 1) (fun c hc => hs c (by simp [hc])) hrest
    show readCStr m a ((strlen s + 1) + 1) = some (b :: s)
    rw [readCStr, h0]
    simp only [hb, if_false, this, Option.map_some']

theorem elemSize_nonneg (elsize : Int) (e : Obj) : 0 ≤ elemSize elsize e := by
  unfold elemSize
  split <;> omega

theorem payloadSize_nil (elsize : Int) : payloadSize elsize [] = 0 := rfl

theorem payloadSize_cons (elsize : Int) (e : Obj) (a : List Obj) :
    payloadSize elsize (e :: a) = elemSize elsize e + payloadSize elsize a := by
  simp [payloadSize]

theorem payloadSize_nonneg (elsize : Int) (a : List Obj) : 0 ≤ payloadSize elsize a := by
  induction a with
  | nil => simp [payloadSize]
  | cons e a ih =>
    rw [payloadSize_cons]
    have := elemSize_nonneg elsize e
    omega

theorem elemBytes_length (elsize : Int) (e : Obj) :
    ((elemBytes elsize e).length : Int) = elemSize elsize e := by
  unfold elemBytes elemSize
  split
  · simp [cstrBytes_length]
  · rw [objBytes_length]
    omega

theorem wrapInt_eq {x : Int} (h1 : INT_MIN ≤ x) (h2 : x ≤ INT_MAX) : wrapInt x = x := by
  unfold INT_MIN at h1
  unfold INT_MAX at h2
  unfold wrapInt
  omega

theorem wrapInt_nonneg {x : Int} (h1 : 0 ≤ x) (h2 : x ≤ INT_MAX) : wrapInt x = x :=
  wrapInt_eq (by unfold INT_MIN; omega) h2

theorem wrapInt_sub {x y : Int} (hx1 : 0 ≤ x) (hx2 : x ≤ INT_MAX) (hy1 : 0 ≤ y)
    (hy2 : y ≤ INT_MAX) : wrapInt (x - y) = x - y := by
  unfold INT_MAX at hx2 hy2
  exact wrapInt_eq (by unfold INT_MIN; omega) (by unfold INT_MAX; omega)

theorem loop_len1 (elsize len : Int) (e : Obj) (h0 : 0 ≤ len)
    (hT : len + elemSize elsize e ≤ INT_MAX) :
    (if elsize < 0 then wrapInt (len + ((strlen e : Int) + 1)) else wrapInt (len + elsize)) =
      len + elemSize elsize e := by
  have he := elemSize_nonneg elsize e
  unfold elemSize at hT he ⊢
  split_ifs at hT he ⊢ with h <;> exact wrapInt_nonneg (by omega) hT

theorem CopyString_none (buf buflen : Int) (m : Mem) : CopyString none buf buflen m = (0, m) := rfl

theorem CopyString_fit (s : CStr) (buf buflen : Int) (m : Mem) (h : (strlen s : Int) < buflen)
    (hs : (strlen s : Int) + 1 ≤ INT_MAX) :
    CopyString (some s) buf buflen m = ((strlen s : Int) + 1, strcpy m buf s) := by
  have hw : wrapInt ((strlen s : Int) + 1) = (strlen s : Int) + 1 :=
    wrapInt_nonneg (by omega) hs
  have : ¬ ((strlen s : Int) + 1 > buflen) := by omega
  simp only [CopyString, zero_add, hw, this, if_false]

theorem CopyString_over (s : CStr) (buf buflen : Int) (m : Mem) (h : buflen ≤ (strlen s : Int))
    (hs : (strlen s : Int) + 1 ≤ INT_MAX) :
    CopyString (some s) buf buflen m = (-1, m) := by
  have hw : wrapInt ((strlen s : Int) + 1) = (strlen s : Int) + 1 :=
    wrapInt_nonneg (by omega) hs
  have : (strlen s : Int) + 1 > buflen := by omega
  simp only [CopyString, zero_add, hw, this, if_true]

theorem strSize_nonneg (src : Option CStr) : 0 ≤ strSize src := by
  cases src with
  | none => simp [strSize]
  | some s => simp only [strSize]; omega

theorem CopyString_success (src : Option CStr) (buf buflen : Int) (m : Mem)
    (h : strSize src ≤ buflen) (hs : strSize src ≤ INT_MAX) :
    (CopyString src buf buflen m).1 = strSize src ∧
    StoresIn m (CopyString src buf buflen m).2 (fun x => buf ≤ x ∧ x < buf + strSize src) ∧
    StrAt (CopyString src buf buflen m).2 src buf := by
  cases src with
  | none =>
    refine ⟨rfl, StoresIn.refl _ _, ?_⟩
    intro s hs
    cases hs
  | some s =>
    have hlt : (strlen s : Int) < buflen := by simp only [strSize] at h; omega
    rw [CopyString_fit s buf buflen m hlt (by simpa [strSize] using hs)]
    refine ⟨rfl, ?_, ?_⟩
    · have := storeList_storesIn m buf (cstrBytes s)
      rw [cstrBytes_length] at this
      refine this.mono ?_
      intro x hx
      simp only [strSize]
      push_cast at hx
      exact hx
    · intro t ht
      cases ht
      have := read_storeList m buf (cstrBytes s)
      rwa [cstrBytes_length] at this

theorem CopyString_failure (src : Option CStr) (buf buflen : Int) (m : Mem)
    (h : buflen < strSize src) (hb : 0 ≤ buflen) (hs : strSize src ≤ INT_MAX) :
    CopyString src buf buflen m = (-1, m) := by
  cases src with
  | none => simp only [strSize] at h; omega
  | some s =>
    simp only [strSize] at h hs
    exact CopyString_over s buf buflen m (by omega) hs

theorem CopyString_ne_neg_one (src : Option CStr) (buf buflen : Int) (m : Mem)
    (h : strSize src ≤ buflen) (hs : strSize src ≤ INT_MAX) :
    (CopyString src buf buflen m).1 ≠ -1 := by
  rw [(CopyString_success src buf buflen m h hs).1]
  have := strSize_nonneg src
  omega

theorem loop_step_mem (elsize : Int) (m : Mem) (p : Int) (e : Obj) :
    (if elsize < 0 then strcpy m p e else memcpy m p e elsize.toNat) =
      m.storeList p (elemBytes elsize e) := by
  unfold elemBytes strcpy memcpy
  split <;> rfl

theorem loop_ret (sz : Nat) (elsize buf buflen : Int) (a : List Obj) (j : Nat) (len p : Int)
    (m : Mem) (hlen : len ≤ buflen) (h0 : 0 ≤ len)
    (hT : len + payloadSize elsize a ≤ INT_MAX) :
    (CopyArray.loop sz elsize buf buflen a j len p m).1 =
      if len + payloadSize elsize a ≤ buflen then len + payloadSize elsize a else -1 := by
  induction a generalizing j len p m with
  | nil => simp [CopyArray.loop, payloadSize, hlen]
  | cons e a ih =>
    have hp := payloadSize_nonneg elsize a
    have he := elemSize_nonneg elsize e
    rw [payloadSize_cons] at hT
    have hlen1 := loop_len1 elsize len e h0 (by omega)
    simp only [CopyArray.loop, hlen1, payloadSize_cons]
    by_cases hgt : len + elemSize elsize e > buflen
    · have : ¬ (len + (elemSize elsize e + payloadSize elsize a) ≤ buflen) := by omega
      simp only [hgt, if_true, this, if_false]
    · simp only [hgt, if_false]
      rw [ih _ _ _ _ (by omega) (by omega) (by omega)]
      rw [show len + elemSize elsize e + payloadSize elsize a =
        len + (elemSize elsize e + payloadSize elsize a) by ring]

theorem loop_storesIn (sz : Nat) (elsize buf buflen : Int) (a : List Obj) (j : Nat) (len : Int)
    (m : Mem) (hslots : ((sz * (j + a.length + 1) : Nat) : Int) ≤ len) (hlen : len ≤ buflen)
    (hT : len + payloadSize elsize a ≤ INT_MAX) :
    StoresIn m (CopyArray.loop sz elsize buf buflen a j len (buf + len) m).2
      (loopArea sz elsize buf buflen a j len) := by
  induction a generalizing j len m with
  | nil =>
    simp only [CopyArray.loop, storePtr]
    have := storeList_storesIn m (buf + ((sz * j : Nat) : Int)) (ptrBytes sz none)
    rw [ptrBytes_length] at this
    refine this.mono ?_
    intro x hx
    simp only [loopArea, List.length_nil, add_zero]
    have e1 : ((sz * (j + 1) : Nat) : Int) = ((sz * j : Nat) : Int) + (sz : Int) := by
      push_cast; ring
    simp only [List.length_nil, add_zero] at hslots
    omega
  | cons e a ih =>
    have he := elemSize_nonneg elsize e
    have hp := payloadSize_nonneg elsize a
    have e1 : ((sz * (j + 1) : Nat) : Int) = ((sz * j : Nat) : Int) + (sz : Int) := by
      push_cast; ring
    have e2 : ((sz * (j + (e :: a).length + 1) : Nat) : Int) =
        ((sz * (j + 1) : Nat) : Int) + ((sz * (a.length + 1) : Nat) : Int) := by
      simp only [List.length_cons]; push_cast; ring
    have e3 : ((sz * (j + 1 + a.length + 1) : Nat) : Int) =
        ((sz * (j + 1) : Nat) : Int) + ((sz * (a.length + 1) : Nat) : Int) := by
      push_cast; ring
    have e4 : (0 : Int) ≤ ((sz * (a.length + 1) : Nat) : Int) := Int.natCast_nonneg _
    have e5 : (0 : Int) ≤ ((sz * j : Nat) : Int) := Int.natCast_nonneg _
    have e6 : (0 : Int) ≤ (sz : Int) := Int.natCast_nonneg _
    rw [payloadSize_cons] at hT
    have hlen1 := loop_len1 elsize len e (by omega) (by omega)
    simp only [CopyArray.loop, hlen1]
    by_cases hgt : len + elemSize elsize e > buflen
    · simp only [hgt, if_true]
      exact StoresIn.refl _ _
    · simp only [hgt, if_false, loop_step_mem]
      have s1 := storeList_storesIn m (buf + len) (elemBytes elsize e)
      rw [elemBytes_length] at s1
      have s2 := storeList_storesIn (m.storeList (buf + len) (elemBytes elsize e))
        (buf + ((sz * j : Nat) : Int)) (ptrBytes sz (some (buf + len)))
      rw [ptrBytes_length] at s2
      have s3 := ih (j + 1) (len + elemSize elsize e)
        (storePtr sz (m.storeList (buf + len) (elemBytes elsize e))
          (buf + ((sz * j : Nat) : Int)) (some (buf + len))) (by omega) (by omega) (by omega)
      refine ((s1.mono ?_).trans (s2.mono ?_)).trans (s3.mono ?_)
      · intro x hx
        simp only [loopArea, payloadSize_cons]
        omega
      · intro x hx
        simp only [loopArea, payloadSize_cons]
        omega
      · intro x hx
        simp only [loopArea, payloadSize_cons] at hx ⊢
        omega

theorem loop_cons_fit (sz : Nat) (elsize buf buflen : Int) (e : Obj) (a : List Obj) (j : Nat)
    (len p : Int) (m : Mem) (h : len + elemSize elsize e ≤ buflen) (h0 : 0 ≤ len)
    (hT : len + elemSize elsize e ≤ INT_MAX) :
    CopyArray.loop sz elsize buf buflen (e :: a) j len p m =
      CopyArray.loop sz elsize buf buflen a (j + 1) (len + elemSize elsize e)
        (buf + (len + elemSize elsize e))
        (storePtr sz (m.storeList p (elemBytes elsize e)) (buf + ((sz * j : Nat) : Int)) (some p)) := by
  have hlen1 := loop_len1 elsize len e h0 hT
  have hgt : ¬ (len + elemSize elsize e > buflen) := by omega
  simp only [CopyArray.loop, hlen1, hgt, if_false, loop_step_mem]

theorem loop_content (sz : Nat) (hsz : 0 < sz) (elsize buf buflen : Int) (a : List Obj) (j : Nat)
    (len : Int) (m : Mem) (hslots : ((sz * (j + a.length + 1) : Nat) : Int) ≤ len)
    (hfit : len + payloadSize elsize a ≤ buflen) (hT : len + payloadSize elsize a ≤ INT_MAX) :
    (∀ k (hk : k < a.length),
      loadPtr sz (CopyArray.loop sz elsize buf buflen a j len (buf + len) m).2
          (buf + ((sz * (j + k) : Nat) : Int)) =
        some (some (buf + len + payloadSize elsize (a.take k))) ∧
      (CopyArray.loop sz elsize buf buflen a j len (buf + len) m).2.read
          (buf + len + payloadSize elsize (a.take k)) (elemBytes elsize (a.get ⟨k, hk⟩)).length =
        elemBytes elsize (a.get ⟨k, hk⟩)) ∧
    loadPtr sz (CopyArray.loop sz elsize buf buflen a j len (buf + len) m).2
        (buf + ((sz * (j + a.length) : Nat) : Int)) = some none := by
  induction a generalizing j len m with
  | nil =>
    refine ⟨fun k hk => absurd hk (by simp), ?_⟩
    simp only [CopyArray.loop, List.length_nil, add_zero]
    exact loadPtr_storePtr hsz _ _ _
  | cons e a ih =>
    have he := elemSize_nonneg elsize e
    have hp := payloadSize_nonneg elsize a
    have e1 : ((sz * (j + 1) : Nat) : Int) = ((sz * j : Nat) : Int) + (sz : Int) := by
      push_cast; ring
    have e2 : ((sz * (j + (e :: a).length + 1) : Nat) : Int) =
        ((sz * (j + 1) : Nat) : Int) + ((sz * (a.length + 1) : Nat) : Int) := by
      simp only [List.length_cons]; push_cast; ring
    have e3 : ((sz * (j + 1 + a.length + 1) : Nat) : Int) =
        ((sz * (j + 1) : Nat) : Int) + ((sz * (a.length + 1) : Nat) : Int) := by
      push_cast; ring
    have e4 : (0 : Int) ≤ ((sz * (a.length + 1) : Nat) : Int) := Int.natCast_nonneg _
    have e5 : (0 : Int) ≤ ((sz * j : Nat) : Int) := Int.natCast_nonneg _
    have hfit1 : len + elemSize elsize e ≤ buflen := by
      rw [payloadSize_cons] at hfit; omega
    have hfit2 : len + elemSize elsize e + payloadSize elsize a ≤ buflen := by
      rw [payloadSize_cons] at hfit; omega
    rw [payloadSize_cons] at hT
    rw [loop_cons_fit sz elsize buf buflen e a j len (buf + len) m hfit1 (by omega) (by omega)]
    have s1 := storeList_storesIn m (buf + len) (elemBytes elsize e)
    rw [elemBytes_length] at s1
    have s2 := storeList_storesIn (m.storeList (buf + len) (elemBytes elsize e))
      (buf + ((sz * j : Nat) : Int)) (ptrBytes sz (some (buf + len)))
    rw [ptrBytes_length] at s2
    have s3 := loop_storesIn sz elsize buf buflen a (j + 1) (len + elemSize elsize e)
      (storePtr sz (m.storeList (buf + len) (elemBytes elsize e))
        (buf + ((sz * j : Nat) : Int)) (some (buf + len))) (by omega) (by omega) (by omega)
    have hih := ih (j + 1) (len + elemSize elsize e)
      (storePtr sz (m.storeList (buf + len) (elemBytes elsize e))
        (buf + ((sz * j : Nat) : Int)) (some (buf + len))) (by omega) hfit2 (by omega)
    refine ⟨?_, ?_⟩
    · intro k hk
      cases k with
      | zero =>
        refine ⟨?_, ?_⟩
        · rw [loadPtr_congr (m := storePtr sz (m.storeList (buf + len) (elemBytes elsize e))
            (buf + ((sz * j : Nat) : Int)) (some (buf + len))) ?_ hsz]
          · simp only [add_zero, List.take_zero, payloadSize_nil]
            exact loadPtr_storePtr hsz _ _ _
          · intro x hx1 hx2
            apply s3.2
            simp only [loopArea, add_zero] at hx1 hx2 ⊢
            omega
        · simp only [List.take_zero, payloadSize_nil, add_zero, List.get_eq_getElem,
            List.getElem_cons_zero]
          rw [read_of_storesIn s3, storePtr, read_of_storesIn s2]
          · exact read_storeList _ _ _
          · intro x hx1 hx2
            have := elemBytes_length elsize e
            omega
          · intro x hx1 hx2
            have := elemBytes_length elsize e
            simp only [loopArea]
            omega
      | succ k =>
        have hk' : k < a.length := by simpa using hk
        obtain ⟨h1, h2⟩ := hih.1 k hk'
        have hidx : j + (k + 1) = j + 1 + k := by omega
        have hadd : buf + len + payloadSize elsize ((e :: a).take (k + 1)) =
            buf + (len + elemSize elsize e) + payloadSize elsize (a.take k) := by
          simp only [List.take_succ_cons, payloadSize_cons]; ring
        rw [hidx, hadd]
        exact ⟨h1, by simpa using h2⟩
    · have hidx : j + (e :: a).length = j + 1 + a.length := by
        simp only [List.length_cons]; omega
      rw [hidx]
      exact hih.2

theorem headerExceeds_iff (sz i : Nat) (buflen : Int) (hb : 0 ≤ buflen) :
    headerExceeds sz i buflen = true ↔ buflen < ((sz * (i + 1) : Nat) : Int) := by
  simp [headerExceeds, hb]

theorem arrSize_nonneg (sz : Nat) (elsize : Int) (src : Option (List Obj)) :
    0 ≤ arrSize sz elsize src := by
  cases src with
  | none => simp [arrSize]
  | some a =>
    have := payloadSize_nonneg elsize a
    have : (0 : Int) ≤ ((sz * (a.length + 1) : Nat) : Int) := Int.natCast_nonneg _
    simp only [arrSize]
    omega

theorem CopyArray_none (sz : Nat) (elsize buf buflen : Int) (m : Mem) :
    CopyArray sz none elsize buf buflen m = (0, m) := rfl

theorem CopyArray_some_header (sz : Nat) (a : List Obj) (elsize buf buflen : Int) (m : Mem)
    (h : ((sz * (a.length + 1) : Nat) : Int) ≤ buflen)
    (hH : ((sz * (a.length + 1) : Nat) : Int) ≤ INT_MAX) :
    CopyArray sz (some a) elsize buf buflen m =
      CopyArray.loop sz elsize buf buflen a 0 ((sz * (a.length + 1) : Nat) : Int)
        (buf + ((sz * (a.length + 1) : Nat) : Int)) m := by
  have h0 : (0 : Int) ≤ ((sz * (a.length + 1) : Nat) : Int) := Int.natCast_nonneg _
  have hw : wrapInt ((sz * (a.length + 1) : Nat) : Int) = ((sz * (a.length + 1) : Nat) : Int) :=
    wrapInt_nonneg h0 hH
  have : headerExceeds sz a.length buflen = false := by
    rw [← Bool.not_eq_true, headerExceeds_iff _ _ _ (by omega)]
    omega
  simp only [CopyArray, this, Bool.false_eq_true, if_false, hw]

theorem CopyArray_ret (sz : Nat) (src : Option (List Obj)) (elsize buf buflen : Int) (m : Mem)
    (hb : 0 ≤ buflen) (hT : arrSize sz elsize src ≤ INT_MAX) :
    (CopyArray sz src elsize buf buflen m).1 =
      if arrSize sz elsize src ≤ buflen then arrSize sz elsize src else -1 := by
  cases src with
  | none => simp [CopyArray, arrSize, hb]
  | some a =>
    have hp := payloadSize_nonneg elsize a
    have h0 : (0 : Int) ≤ ((sz * (a.length + 1) : Nat) : Int) := Int.natCast_nonneg _
    simp only [arrSize] at hT
    by_cases hh : ((sz * (a.length + 1) : Nat) : Int) ≤ buflen
    · rw [CopyArray_some_header sz a elsize buf buflen m hh (by omega),
        loop_ret _ _ _ _ _ _ _ _ _ hh h0 hT]
      rfl
    · have h1 : headerExceeds sz a.length buflen = true := by
        rw [headerExceeds_iff _ _ _ hb]; omega
      have h2 : ¬ (arrSize sz elsize (some a) ≤ buflen) := by
        simp only [arrSize]; omega
      simp only [CopyArray, h1, if_true, h2, if_false]

theorem CopyArray_storesIn (sz : Nat) (src : Option (List Obj)) (elsize buf buflen : Int) (m : Mem)
    (hb : 0 ≤ buflen) (hT : arrSize sz elsize src ≤ INT_MAX) :
    StoresIn m (CopyArray sz src elsize buf buflen m).2
      (fun x => buf ≤ x ∧ x < buf + arrSize sz elsize src ∧ x < buf + buflen) := by
  cases src with
  | none => exact StoresIn.refl _ _
  | some a =>
    have hp0 := payloadSize_nonneg elsize a
    simp only [arrSize] at hT
    by_cases hh : ((sz * (a.length + 1) : Nat) : Int) ≤ buflen
    · rw [CopyArray_some_header sz a elsize buf buflen m hh (by omega)]
      have := loop_storesIn sz elsize buf buflen a 0 ((sz * (a.length + 1) : Nat) : Int) m
        (by simp) hh hT
      refine this.mono ?_
      intro x hx
      have hp := payloadSize_nonneg elsize a
      have e0 : ((sz * 0 : Nat) : Int) = 0 := by simp
      have e1 : ((sz * (0 + a.length + 1) : Nat) : Int) = ((sz * (a.length + 1) : Nat) : Int) := by
        simp
      have e2 : (0 : Int) ≤ ((sz * (a.length + 1) : Nat) : Int) := Int.natCast_nonneg _
      simp only [loopArea, e0, e1] at hx
      simp only [arrSize]
      omega
    · have h1 : headerExceeds sz a.length buflen = true := by
        rw [headerExceeds_iff _ _ _ hb]; omega
      simp only [CopyArray, h1, if_true]
      exact StoresIn.refl _ _

theorem CopyArray_content (sz : Nat) (hsz : 0 < sz) (a : List Obj) (elsize buf buflen : Int)
    (m : Mem) (h : arrSize sz elsize (some a) ≤ buflen)
    (hT : arrSize sz elsize (some a) ≤ INT_MAX) :
    ArrayAt sz elsize (CopyArray sz (some a) elsize buf buflen m).2 a buf := by
  have hp := payloadSize_nonneg elsize a
  have hh : ((sz * (a.length + 1) : Nat) : Int) ≤ buflen := by
    simp only [arrSize] at h; omega
  have hH : ((sz * (a.length + 1) : Nat) : Int) ≤ INT_MAX := by
    simp only [arrSize] at hT; omega
  rw [CopyArray_some_header sz a elsize buf buflen m hh hH]
  have := loop_content sz hsz elsize buf buflen a 0 ((sz * (a.length + 1) : Nat) : Int) m
    (by simp) (by simpa [arrSize] using h) (by simpa [arrSize] using hT)
  simpa [ArrayAt] using this

theorem rewritten_strSize (src : Option CStr) (p : Int) :
    (rewritten (strSize src) p : Ref CStr) = match src with
      | none => Ref.null
      | some _ => Ref.scratch p := by
  cases src with
  | none => simp [rewritten, strSize]
  | some s =>
    have : (strlen s : Int) + 1 > 0 := by omega
    simp only [rewritten, strSize, this, if_true]

theorem CopyString_ret (src : Option CStr) (buf buflen : Int) (m : Mem) (hb : 0 ≤ buflen)
    (hs : strSize src ≤ INT_MAX) :
    (CopyString src buf buflen m).1 = if strSize src ≤ buflen then strSize src else -1 := by
  by_cases h : strSize src ≤ buflen
  · simp only [h, if_true, (CopyString_success src buf buflen m h hs).1]
  · simp only [h, if_false, CopyString_failure src buf buflen m (by omega) hb hs]

theorem CopyString_storesIn (src : Option CStr) (buf buflen : Int) (m : Mem)
    (hs : strSize src ≤ INT_MAX) :
    StoresIn m (CopyString src buf buflen m).2
      (fun x => buf ≤ x ∧ x < buf + strSize src ∧ x < buf + buflen) := by
  by_cases h : strSize src ≤ buflen
  · refine (CopyString_success src buf buflen m h hs).2.1.mono ?_
    intro x hx
    omega
  · cases src with
    | none => exact StoresIn.refl _ _
    | some s =>
      simp only [strSize] at h hs
      rw [CopyString_over s buf buflen m (by omega) hs]
      exact StoresIn.refl _ _

theorem StrAt_of_storesIn {m m' : Mem} {S : Int → Prop} {src : Option CStr} {a : Int}
    (h : StrAt m src a) (hs : StoresIn m m' S)
    (hd : ∀ x, a ≤ x → x < a + strSize src → ¬ S x) : StrAt m' src a := by
  intro s hs'
  rw [read_of_storesIn hs, h s hs']
  intro x h1 h2
  apply hd x h1
  subst hs'
  simp only [strSize]
  push_cast at h2
  omega

theorem CopyPwd_spec (t : PasswdSrc) (buf buflen : Int) (st : State) (hb : 0 ≤ buflen)
    (hI : buflen ≤ INT_MAX) (hT : pwdSize t ≤ INT_MAX) :
    StoresIn st.mem (CopyPwd t buf buflen st).st.mem (fun x => buf ≤ x ∧ x < buf + buflen) ∧
    (pwdSize t ≤ buflen →
      (CopyPwd t buf buflen st).ret = 0 ∧ (CopyPwd t buf buflen st).st.errno = st.errno ∧
      (CopyPwd t buf buflen st).tgt =
        { pw_name := rewritten (strSize t.pw_name) buf,
          pw_passwd := rewritten (strSize t.pw_passwd) (buf + strSize t.pw_name),
          pw_uid := t.pw_uid, pw_gid := t.pw_gid, pw_gecos := Ref.ofSrc t.pw_gecos,
          pw_dir := rewritten (strSize t.pw_dir) (buf + (strSize t.pw_name + strSize t.pw_passwd)),
          pw_shell := rewritten (strSize t.pw_shell)
            (buf + (strSize t.pw_name + strSize t.pw_passwd + strSize t.pw_dir)) } ∧
      StrAt (CopyPwd t buf buflen st).st.mem t.pw_name buf ∧
      StrAt (CopyPwd t buf buflen st).st.mem t.pw_passwd (buf + strSize t.pw_name) ∧
      StrAt (CopyPwd t buf buflen st).st.mem t.pw_dir
        (buf + (strSize t.pw_name + strSize t.pw_passwd)) ∧
      StrAt (CopyPwd t buf buflen st).st.mem t.pw_shell
        (buf + (strSize t.pw_name + strSize t.pw_passwd + strSize t.pw_dir))) ∧
    (buflen < pwdSize t →
      (CopyPwd t buf buflen st).ret = -1 ∧ (CopyPwd t buf buflen st).st.errno = ERANGE) := by
  have n1 := strSize_nonneg t.pw_name
  have n2 := strSize_nonneg t.pw_passwd
  have n3 := strSize_nonneg t.pw_dir
  have n4 := strSize_nonneg t.pw_shell
  unfold pwdSize at hT
  have hs1 : strSize t.pw_name ≤ INT_MAX := by omega
  have hs2 : strSize t.pw_passwd ≤ INT_MAX := by omega
  have hs3 : strSize t.pw_dir ≤ INT_MAX := by omega
  have hs4 : strSize t.pw_shell ≤ INT_MAX := by omega
  have w0 : wrapInt buflen = buflen := wrapInt_nonneg hb hI
  have w1 : wrapInt (strSize t.pw_name) = strSize t.pw_name := wrapInt_nonneg n1 hs1
  have w2 : wrapInt (strSize t.pw_name + strSize t.pw_passwd) =
      strSize t.pw_name + strSize t.pw_passwd := wrapInt_nonneg (by omega) (by omega)
  have w3 : wrapInt (strSize t.pw_name + strSize t.pw_passwd + strSize t.pw_dir) =
      strSize t.pw_name + strSize t.pw_passwd + strSize t.pw_dir :=
    wrapInt_nonneg (by omega) (by omega)
  have c1 : wrapInt (buflen - strSize t.pw_name) = buflen - strSize t.pw_name :=
    wrapInt_sub hb hI n1 hs1
  have c2 : wrapInt (buflen - (strSize t.pw_name + strSize t.pw_passwd)) =
      buflen - (strSize t.pw_name + strSize t.pw_passwd) :=
    wrapInt_sub hb hI (by omega) (by omega)
  have c3 : wrapInt (buflen - (strSize t.pw_name + strSize t.pw_passwd + strSize t.pw_dir)) =
      buflen - (strSize t.pw_name + strSize t.pw_passwd + strSize t.pw_dir) :=
    wrapInt_sub hb hI (by omega) (by omega)
  have S1 := CopyString_storesIn t.pw_name buf buflen st.mem hs1
  have S2 := CopyString_storesIn t.pw_passwd (buf + strSize t.pw_name)
    (buflen - strSize t.pw_name) (CopyString t.pw_name buf buflen st.mem).2 hs2
  have S3 := CopyString_storesIn t.pw_dir (buf + (strSize t.pw_name + strSize t.pw_passwd))
    (buflen - (strSize t.pw_name + strSize t.pw_passwd))
    (CopyString t.pw_passwd (buf + strSize t.pw_name)
      (buflen - strSize t.pw_name) (CopyString t.pw_name buf buflen st.mem).2).2 hs3
  have S4 := CopyString_storesIn t.pw_shell
    (buf + (strSize t.pw_name + strSize t.pw_passwd + strSize t.pw_dir))
    (buflen - (strSize t.pw_name + strSize t.pw_passwd + strSize t.pw_dir))
    (CopyString t.pw_dir (buf + (strSize t.pw_name + strSize t.pw_passwd))
      (buflen - (strSize t.pw_name + strSize t.pw_passwd))
      (CopyString t.pw_passwd (buf + strSize t.pw_name)
        (buflen - strSize t.pw_name) (CopyString t.pw_name buf buflen st.mem).2).2).2 hs4
  unfold CopyPwd pwdSize
  simp only [zero_add, sub_zero, w0]
  rw [CopyString_ret t.pw_name buf buflen st.mem hb hs1]
  by_cases f1 : strSize t.pw_name ≤ buflen
  · have e1 : strSize t.pw_name ≠ -1 := by omega
    simp only [f1, if_true, e1, if_false, w1, c1]
    rw [CopyString_ret t.pw_passwd _ _ _ (by omega) hs2]
    by_cases f2 : strSize t.pw_passwd ≤ buflen - strSize t.pw_name
    · have e2 : strSize t.pw_passwd ≠ -1 := by omega
      simp only [f2, if_true, e2, if_false, w2, c2]
      rw [CopyString_ret t.pw_dir _ _ _ (by omega) hs3]
      by_cases f3 : strSize t.pw_dir ≤ buflen - (strSize t.pw_name + strSize t.pw_passwd)
      · have e3 : strSize t.pw_dir ≠ -1 := by omega
        simp only [f3, if_true, e3, if_false, w3, c3]
        rw [CopyString_ret t.pw_shell _ _ _ (by omega) hs4]
        by_cases f4 : strSize t.pw_shell ≤
            buflen - (strSize t.pw_name + strSize t.pw_passwd + strSize t.pw_dir)
        · have e4 : strSize t.pw_shell ≠ -1 := by omega
          simp only [f4, if_true, e4, if_false]
          have A1 := (CopyString_success t.pw_name buf buflen st.mem f1 hs1).2.2
          have A2 := (CopyString_success t.pw_passwd (buf + strSize t.pw_name)
            (buflen - strSize t.pw_name) (CopyString t.pw_name buf buflen st.mem).2 f2 hs2).2.2
          have A3 := (CopyString_success t.pw_dir (buf + (strSize t.pw_name + strSize t.pw_passwd))
            (buflen - (strSize t.pw_name + strSize t.pw_passwd)) (CopyString t.pw_passwd
            (buf + strSize t.pw_name) (buflen - strSize t.pw_name)
            (CopyString t.pw_name buf buflen st.mem).2).2 f3 hs3).2.2
          have A4 := (CopyString_success t.pw_shell
            (buf + (strSize t.pw_name + strSize t.pw_passwd + strSize t.pw_dir))
            (buflen - (strSize t.pw_name + strSize t.pw_passwd + strSize t.pw_dir)) (CopyString t.pw_dir
            (buf + (strSize t.pw_name + strSize t.pw_passwd))
            (buflen - (strSize t.pw_name + strSize t.pw_passwd))
            (CopyString t.pw_passwd (buf + strSize t.pw_name) (buflen - strSize t.pw_name)
              (CopyString t.pw_name buf buflen st.mem).2).2).2 f4 hs4).2.2
          refine ⟨?_, fun _ => ⟨trivial, trivial, rfl, ?_, ?_, ?_, A4⟩, fun hlt => absurd hlt (by omega)⟩
          · refine (((S1.mono ?_).trans (S2.mono ?_)).trans (S3.mono ?_)).trans (S4.mono ?_) <;>
              (intro x hx; omega)
          · refine StrAt_of_storesIn (StrAt_of_storesIn (StrAt_of_storesIn A1 S2 ?_) S3 ?_) S4 ?_ <;>
              (intro x h1 h2; omega)
          · refine StrAt_of_storesIn (StrAt_of_storesIn A2 S3 ?_) S4 ?_ <;>
              (intro x h1 h2; omega)
          · refine StrAt_of_storesIn A3 S4 ?_
            intro x h1 h2; omega
        · simp only [f4, if_false, if_true]
          refine ⟨?_, fun hle => absurd hle (by omega), fun _ => ⟨trivial, trivial⟩⟩
          refine (((S1.mono ?_).trans (S2.mono ?_)).trans (S3.mono ?_)).trans (S4.mono ?_) <;>
            (intro x hx; omega)
      · simp only [f3, if_false, if_true]
        refine ⟨?_, fun hle => absurd hle (by omega), fun _ => ⟨trivial, trivial⟩⟩
        refine ((S1.mono ?_).trans (S2.mono ?_)).trans (S3.mono ?_) <;>
          (intro x hx; omega)
    · simp only [f2, if_false, if_true]
      refine ⟨?_, fun hle => absurd hle (by omega), fun _ => ⟨trivial, trivial⟩⟩
      refine (S1.mono ?_).trans (S2.mono ?_) <;> (intro x hx; omega)
  · simp only [f1, if_false, if_true]
    refine ⟨?_, fun hle => absurd hle (by omega), fun _ => ⟨trivial, trivial⟩⟩
    refine S1.mono ?_
    intro x hx; omega

theorem rewritten_arrSize (sz : Nat) (hsz : 0 < sz) (elsize : Int) (src : Option (List Obj))
    (p : Int) :
    (rewritten (arrSize sz elsize src) p : Ref (List Obj)) = match src with
      | none => Ref.null
      | some _ => Ref.scratch p := by
  cases src with
  | none => simp [rewritten, arrSize]
  | some a =>
    have h1 := payloadSize_nonneg elsize a
    have h2 : (sz : Int) ≤ ((sz * (a.length + 1) : Nat) : Int) := by
      push_cast
      nlinarith [Int.natCast_nonneg sz, Int.natCast_nonneg a.length]
    have : ((sz * (a.length + 1) : Nat) : Int) + payloadSize elsize a > 0 := by omega
    simp only [rewritten, arrSize, this, if_true]

theorem CopyGrp_spec (sz : Nat) (t : GroupSrc) (buf buflen : Int) (st : State) (hb : 0 ≤ buflen)
    (hI : buflen ≤ INT_MAX) (hT : grpSize sz t ≤ INT_MAX) :
    StoresIn st.mem (CopyGrp sz t buf buflen st).st.mem (fun x => buf ≤ x ∧ x < buf + buflen) ∧
    (grpSize sz t ≤ buflen →
      (CopyGrp sz t buf buflen st).ret = 0 ∧ (CopyGrp sz t buf buflen st).st.errno = st.errno ∧
      (CopyGrp sz t buf buflen st).tgt =
        { gr_name := rewritten (strSize t.gr_name) buf,
          gr_passwd := rewritten (strSize t.gr_passwd) (buf + strSize t.gr_name),
          gr_gid := t.gr_gid,
          gr_mem := rewritten (arrSize sz (-1) t.gr_mem)
            (buf + (strSize t.gr_name + strSize t.gr_passwd)) } ∧
      StrAt (CopyGrp sz t buf buflen st).st.mem t.gr_name buf ∧
      StrAt (CopyGrp sz t buf buflen st).st.mem t.gr_passwd (buf + strSize t.gr_name) ∧
      (0 < sz → ∀ a, t.gr_mem = some a →
        ArrayAt sz (-1) (CopyGrp sz t buf buflen st).st.mem a
          (buf + (strSize t.gr_name + strSize t.gr_passwd)))) ∧
    (buflen < grpSize sz t →
      (CopyGrp sz t buf buflen st).ret = -1 ∧ (CopyGrp sz t buf buflen st).st.errno = ERANGE) := by
  have n1 := strSize_nonneg t.gr_name
  have n2 := strSize_nonneg t.gr_passwd
  have n3 := arrSize_nonneg sz (-1) t.gr_mem
  unfold grpSize at hT
  have hs1 : strSize t.gr_name ≤ INT_MAX := by omega
  have hs2 : strSize t.gr_passwd ≤ INT_MAX := by omega
  have hs3 : arrSize sz (-1) t.gr_mem ≤ INT_MAX := by omega
  have w0 : wrapInt buflen = buflen := wrapInt_nonneg hb hI
  have w1 : wrapInt (strSize t.gr_name) = strSize t.gr_name := wrapInt_nonneg n1 hs1
  have w2 : wrapInt (strSize t.gr_name + strSize t.gr_passwd) =
      strSize t.gr_name + strSize t.gr_passwd := wrapInt_nonneg (by omega) (by omega)
  have c1 : wrapInt (buflen - strSize t.gr_name) = buflen - strSize t.gr_name :=
    wrapInt_sub hb hI n1 hs1
  have c2 : wrapInt (buflen - (strSize t.gr_name + strSize t.gr_passwd)) =
      buflen - (strSize t.gr_name + strSize t.gr_passwd) :=
    wrapInt_sub hb hI (by omega) (by omega)
  have S1 := CopyString_storesIn t.gr_name buf buflen st.mem hs1
  have S2 := CopyString_storesIn t.gr_passwd (buf + strSize t.gr_name)
    (buflen - strSize t.gr_name) (CopyString t.gr_name buf buflen st.mem).2 hs2
  unfold CopyGrp grpSize
  simp only [zero_add, sub_zero, w0]
  rw [CopyString_ret t.gr_name buf buflen st.mem hb hs1]
  by_cases f1 : strSize t.gr_name ≤ buflen
  · have e1 : strSize t.gr_name ≠ -1 := by omega
    simp only [f1, if_true, e1, if_false, w1, c1]
    rw [CopyString_ret t.gr_passwd _ _ _ (by omega) hs2]
    by_cases f2 : strSize t.gr_passwd ≤ buflen - strSize t.gr_name
    · have e2 : strSize t.gr_passwd ≠ -1 := by omega
      simp only [f2, if_true, e2, if_false, w2, c2]
      have hb3 : 0 ≤ buflen - (strSize t.gr_name + strSize t.gr_passwd) := by omega
      have S3 := CopyArray_storesIn sz t.gr_mem (-1) (buf + (strSize t.gr_name + strSize t.gr_passwd))
        (buflen - (strSize t.gr_name + strSize t.gr_passwd))
        (CopyString t.gr_passwd (buf + strSize t.gr_name)
          (buflen - strSize t.gr_name) (CopyString t.gr_name buf buflen st.mem).2).2 hb3 hs3
      rw [CopyArray_ret sz t.gr_mem _ _ _ _ hb3 hs3]
      by_cases f3 : arrSize sz (-1) t.gr_mem ≤ buflen - (strSize t.gr_name + strSize t.gr_passwd)
      · have e3 : arrSize sz (-1) t.gr_mem ≠ -1 := by omega
        simp only [f3, if_true, e3, if_false]
        have A1 := (CopyString_success t.gr_name buf buflen st.mem f1 hs1).2.2
        have A2 := (CopyString_success t.gr_passwd (buf + strSize t.gr_name)
          (buflen - strSize t.gr_name) (CopyString t.gr_name buf buflen st.mem).2 f2 hs2).2.2
        refine ⟨?_, fun _ => ⟨trivial, trivial, rfl, ?_, ?_, ?_⟩, fun hlt => absurd hlt (by omega)⟩
        · refine ((S1.mono ?_).trans (S2.mono ?_)).trans (S3.mono ?_) <;>
            (intro x hx; omega)
        · refine StrAt_of_storesIn (StrAt_of_storesIn A1 S2 ?_) S3 ?_ <;>
            (intro x h1 h2; omega)
        · refine StrAt_of_storesIn A2 S3 ?_
          intro x h1 h2; omega
        · intro hsz a ha
          rw [ha] at f3 hs3 ⊢
          exact CopyArray_content sz hsz a (-1) _ _ _ f3 hs3
      · simp only [f3, if_false, if_true]
        refine ⟨?_, fun hle => absurd hle (by omega), fun _ => ⟨trivial, trivial⟩⟩
        refine ((S1.mono ?_).trans (S2.mono ?_)).trans (S3.mono ?_) <;>
          (intro x hx; omega)
    · simp only [f2, if_false, if_true]
      refine ⟨?_, fun hle => absurd hle (by omega), fun _ => ⟨trivial, trivial⟩⟩
      refine (S1.mono ?_).trans (S2.mono ?_) <;> (intro x hx; omega)
  · simp only [f1, if_false, if_true]
    refine ⟨?_, fun hle => absurd hle (by omega), fun _ => ⟨trivial, trivial⟩⟩
    refine S1.mono ?_
    intro x hx; omega

theorem CopyHostent_ret (sz : Nat) (t : HostentSrc) (buf buflen : Int) (st : State)
    (hb : 0 ≤ buflen) (hI : buflen ≤ INT_MAX) (hT : hostSize sz t ≤ INT_MAX) :
    (hostSize sz t ≤ buflen →
      (CopyHostent sz t buf buflen st).ret = 0 ∧
        (CopyHostent sz t buf buflen st).st.errno = st.errno) ∧
    (buflen < hostSize sz t →
      (CopyHostent sz t buf buflen st).ret = -1 ∧
        (CopyHostent sz t buf buflen st).st.errno = ERANGE) := by
  have n1 := strSize_nonneg t.h_name
  have n2 := arrSize_nonneg sz (-1) t.h_aliases
  have n3 := arrSize_nonneg sz t.h_length t.h_addr_list
  unfold hostSize at hT
  have hs1 : strSize t.h_name ≤ INT_MAX := by omega
  have hs2 : arrSize sz (-1) t.h_aliases ≤ INT_MAX := by omega
  have hs3 : arrSize sz t.h_length t.h_addr_list ≤ INT_MAX := by omega
  have w0 : wrapInt buflen = buflen := wrapInt_nonneg hb hI
  have w1 : wrapInt (strSize t.h_name) = strSize t.h_name := wrapInt_nonneg n1 hs1
  have w2 : wrapInt (strSize t.h_name + arrSize sz (-1) t.h_aliases) =
      strSize t.h_name + arrSize sz (-1) t.h_aliases := wrapInt_nonneg (by omega) (by omega)
  have c1 : wrapInt (buflen - strSize t.h_name) = buflen - strSize t.h_name :=
    wrapInt_sub hb hI n1 hs1
  have c2 : wrapInt (buflen - (strSize t.h_name + arrSize sz (-1) t.h_aliases)) =
      buflen - (strSize t.h_name + arrSize sz (-1) t.h_aliases) :=
    wrapInt_sub hb hI (by omega) (by omega)
  unfold CopyHostent hostSize
  simp only [zero_add, sub_zero, w0]
  rw [CopyString_ret t.h_name buf buflen st.mem hb hs1]
  by_cases f1 : strSize t.h_name ≤ buflen
  · have e1 : strSize t.h_name ≠ -1 := by omega
    simp only [f1, if_true, e1, if_false, w1, c1]
    rw [CopyArray_ret sz t.h_aliases _ _ _ _ (by omega) hs2]
    by_cases f2 : arrSize sz (-1) t.h_aliases ≤ buflen - strSize t.h_name
    · have e2 : arrSize sz (-1) t.h_aliases ≠ -1 := by omega
      simp only [f2, if_true, e2, if_false, w2, c2]
      rw [CopyArray_ret sz t.h_addr_list _ _ _ _ (by omega) hs3]
      by_cases f3 : arrSize sz t.h_length t.h_addr_list ≤
          buflen - (strSize t.h_name + arrSize sz (-1) t.h_aliases)
      · have e3 : arrSize sz t.h_length t.h_addr_list ≠ -1 := by omega
        simp only [f3, if_true, e3, if_false]
        exact ⟨fun _ => ⟨trivial, trivial⟩, fun hlt => absurd hlt (by omega)⟩
      · simp only [f3, if_false, if_true]
        exact ⟨fun hle => absurd hle (by omega), fun _ => ⟨trivial, trivial⟩⟩
    · simp only [f2, if_false, if_true]
      exact ⟨fun hle => absurd hle (by omega), fun _ => ⟨trivial, trivial⟩⟩
  · simp only [f1, if_false, if_true]
    exact ⟨fun hle => absurd hle (by omega), fun _ => ⟨trivial, trivial⟩⟩

theorem read_append (m : Mem) (a : Int) (n₁ n₂ : Nat) :
    m.read a (n₁ + n₂) = m.read a n₁ ++ m.read (a + (n₁ : Int)) n₂ := by
  induction n₁ generalizing a with
  | zero => simp [Mem.read]
  | succ n ih =>
    rw [show n + 1 + n₂ = (n + n₂) + 1 by omega, read_succ, read_succ, ih (a + 1)]
    simp only [List.cons_append, Nat.cast_add, Nat.cast_one]
    rw [show a + 1 + (n : Int) = a + ((n : Int) + 1) by ring]

theorem read_flatten (m : Mem) (bs : List (List MemVal)) (a : Int)
    (h : ∀ k (hk : k < bs.length),
      m.read (a + ((((bs.take k).map List.length).sum : Nat) : Int)) (bs.get ⟨k, hk⟩).length =
        bs.get ⟨k, hk⟩) :
    m.read a (bs.map List.length).sum = bs.flatten := by
  induction bs generalizing a with
  | nil => simp [Mem.read]
  | cons b bs ih =>
    simp only [List.map_cons, List.sum_cons, List.flatten_cons]
    rw [read_append]
    have h0 := h 0 (by simp)
    simp only [List.take_zero, List.map_nil, List.sum_nil, Nat.cast_zero, add_zero,
      List.get_eq_getElem, List.getElem_cons_zero] at h0
    rw [h0, ih (a + (b.length : Int))]
    intro k hk
    have := h (k + 1) (by simpa using hk)
    simp only [List.take_succ_cons, List.map_cons, List.sum_cons, Nat.cast_add,
      List.get_eq_getElem, List.getElem_cons_succ] at this
    rw [show a + (b.length : Int) + ((((bs.take k).map List.length).sum : Nat) : Int) =
      a + ((b.length : Int) + ((((bs.take k).map List.length).sum : Nat) : Int)) by ring]
    simpa using this

theorem payloadSize_str (a : List CStr) :
    payloadSize (-1) a = (a.map fun s => (strlen s : Int) + 1).sum := by
  have : elemSize (-1) = fun s => (strlen s : Int) + 1 := by
    funext s
    simp [elemSize]
  rw [payloadSize, this]

theorem elemBytes_str (e : CStr) : elemBytes (-1) e = cstrBytes e := by
  simp [elemBytes]

theorem payloadSize_eq_lengths (elsize : Int) (a : List Obj) :
    ((((a.map (elemBytes elsize)).map List.length).sum : Nat) : Int) = payloadSize elsize a := by
  induction a with
  | nil => simp [payloadSize]
  | cons e a ih =>
    simp only [List.map_cons, List.sum_cons, Nat.cast_add, payloadSize_cons, elemBytes_length]
    rw [ih]

theorem ArrayAt_read_payload {sz : Nat} {elsize : Int} {m : Mem} {a : List Obj} {tbl : Int}
    (h : ArrayAt sz elsize m a tbl) :
    m.read (tbl + ((sz * (a.length + 1) : Nat) : Int)) ((a.map (elemBytes elsize)).map List.length).sum =
      (a.map (elemBytes elsize)).flatten := by
  apply read_flatten
  intro k hk
  have hk' : k < a.length := by simpa using hk
  have := (h.1 k hk').2
  rw [← List.map_take, payloadSize_eq_lengths]
  simpa using this

theorem StrCopiedAt_intro {m : Mem} {src : Option CStr} {a : Int} (h : StrAt m src a) :
    StrCopiedAt m src (rewritten (strSize src) a) a := by
  cases src with
  | none => simp [StrCopiedAt, rewritten_strSize]
  | some s =>
    refine ⟨by simp [rewritten_strSize], ?_⟩
    exact h s rfl

theorem pwdSize_nonneg (t : PasswdSrc) : 0 ≤ pwdSize t := by
  have n1 := strSize_nonneg t.pw_name
  have n2 := strSize_nonneg t.pw_passwd
  have n3 := strSize_nonneg t.pw_dir
  have n4 := strSize_nonneg t.pw_shell
  unfold pwdSize
  omega

theorem grpSize_nonneg (sz : Nat) (t : GroupSrc) : 0 ≤ grpSize sz t := by
  have n1 := strSize_nonneg t.gr_name
  have n2 := strSize_nonneg t.gr_passwd
  have n3 := arrSize_nonneg sz (-1) t.gr_mem
  unfold grpSize
  omega

theorem payloadSize_take_succ_le (elsize : Int) (a : List Obj) (k : Nat) (hk : k < a.length) :
    payloadSize elsize (a.take k) + elemSize elsize (a.get ⟨k, hk⟩) ≤ payloadSize elsize a := by
  induction a generalizing k with
  | nil => simp at hk
  | cons e a ih =>
    cases k with
    | zero =>
      have := payloadSize_nonneg elsize a
      simp only [List.take_zero, payloadSize_nil, payloadSize_cons, List.get_eq_getElem,
        List.getElem_cons_zero]
      omega
    | succ k =>
      have hk' : k < a.length := by simpa using hk
      have := ih k hk'
      simp only [List.take_succ_cons, payloadSize_cons, List.get_eq_getElem,
        List.getElem_cons_succ] at this ⊢
      omega

theorem elemSize_blob (elsize : Int) (he : 0 ≤ elsize) (e : Obj) : elemSize elsize e = elsize := by
  have : ¬ elsize < 0 := by omega
  simp only [elemSize, this, if_false]

theorem payloadSize_blob (elsize : Int) (he : 0 ≤ elsize) (a : List Obj) :
    payloadSize elsize a = (a.length : Int) * elsize := by
  induction a with
  | nil => simp [payloadSize]
  | cons e a ih =>
    rw [payloadSize_cons, ih, elemSize_blob elsize he]
    simp only [List.length_cons, Nat.cast_add, Nat.cast_one]
    ring

theorem objBytes_full (e : Obj) : objBytes e e.length = e.map MemVal.byte := by
  apply List.ext_get
  · simp [objBytes]
  · intro k h1 h2
    have hk : k < e.length := by simpa [objBytes] using h1
    simp [objBytes, List.getElem?_eq_getElem hk]

theorem elemBytes_blob (elsize : Int) (he : 0 ≤ elsize) (e : Obj)
    (hl : (e.length : Int) = elsize) : elemBytes elsize e = e.map MemVal.byte := by
  have h1 : ¬ elsize < 0 := by omega
  have h2 : elsize.toNat = e.length := by omega
  simp only [elemBytes, h1, if_false, h2, objBytes_full]

theorem CopyPwd_scalars (t : PasswdSrc) (buf buflen : Int) (st : State) :
    (CopyPwd t buf buflen st).tgt.pw_uid = t.pw_uid ∧
    (CopyPwd t buf buflen st).tgt.pw_gid = t.pw_gid ∧
    (CopyPwd t buf buflen st).tgt.pw_gecos = Ref.ofSrc t.pw_gecos := by
  unfold CopyPwd
  simp only []
  split_ifs <;> exact ⟨rfl, rfl, rfl⟩

theorem CopyGrp_scalars (sz : Nat) (t : GroupSrc) (buf buflen : Int) (st : State) :
    (CopyGrp sz t buf buflen st).tgt.gr_gid = t.gr_gid := by
  unfold CopyGrp
  simp only []
  split_ifs <;> rfl

theorem CopyHostent_scalars (sz : Nat) (t : HostentSrc) (buf buflen : Int) (st : State) :
    (CopyHostent sz t buf buflen st).tgt.h_addrtype = t.h_addrtype ∧
    (CopyHostent sz t buf buflen st).tgt.h_length = t.h_length := by
  unfold CopyHostent
  simp only []
  split_ifs <;> exact ⟨rfl, rfl⟩

theorem FallbackResult_intro {S R : Type} (prim : Option S) (copier : S → Outcome R) :
    FallbackResult prim copier
      (match prim with
        | none => none
        | some r => if (copier r).ret = -1 then none else some (copier r).tgt) := by
  cases prim with
  | none => exact ⟨by simp, fun r h => by cases h⟩
  | some r =>
    by_cases hr : (copier r).ret = -1
    · refine ⟨by simp [hr], fun r' h hne => ?_⟩
      cases h
      exact absurd hr hne
    · refine ⟨by simp [hr], fun r' h _ => ?_⟩
      cases h
      simp [hr]

theorem ArrayAt_of_storesIn {sz : Nat} (hsz : 0 < sz) {elsize : Int} {m m' : Mem}
    {S : Int → Prop} {a : List Obj} {tbl : Int} (h : ArrayAt sz elsize m a tbl)
    (hs : StoresIn m m' S)
    (hd : ∀ x, tbl ≤ x → x < tbl + arrSize sz elsize (some a) → ¬ S x) :
    ArrayAt sz elsize m' a tbl := by
  have hp := payloadSize_nonneg elsize a
  have e0 : ((sz * (a.length + 1) : Nat) : Int) = ((sz * a.length : Nat) : Int) + (sz : Int) := by
    push_cast; ring
  have e1 : (0 : Int) ≤ ((sz * a.length : Nat) : Int) := Int.natCast_nonneg _
  simp only [arrSize] at hd
  refine ⟨fun k hk => ?_, ?_⟩
  · obtain ⟨l1, l2⟩ := h.1 k hk
    have b1 := payloadSize_take_succ_le elsize a k hk
    have b2 := payloadSize_nonneg elsize (a.take k)
    have b3 := elemBytes_length elsize (a.get ⟨k, hk⟩)
    have e2 : ((sz * k : Nat) : Int) + (sz : Int) ≤ ((sz * a.length : Nat) : Int) := by
      have : sz * k + sz ≤ sz * a.length := by
        calc sz * k + sz = sz * (k + 1) := by ring
          _ ≤ sz * a.length := Nat.mul_le_mul_left sz hk
      exact_mod_cast this
    have e3 : (0 : Int) ≤ ((sz * k : Nat) : Int) := Int.natCast_nonneg _
    refine ⟨?_, ?_⟩
    · rw [loadPtr_congr (m := m) ?_ hsz]
      · exact l1
      · intro x hx1 hx2
        exact hs.2 x (hd x (by omega) (by omega))
    · rw [read_of_storesIn hs]
      · exact l2
      · intro x hx1 hx2
        exact hd x (by omega) (by omega)
  · rw [loadPtr_congr (m := m) ?_ hsz]
    · exact h.2
    · intro x hx1 hx2
      exact hs.2 x (hd x (by omega) (by omega))

theorem CopyHostent_spec (sz : Nat) (t : HostentSrc) (buf buflen : Int) (st : State)
    (h : hostSize sz t ≤ buflen) (hI : buflen ≤ INT_MAX) :
    (CopyHostent sz t buf buflen st).tgt =
      { h_name := rewritten (strSize t.h_name) buf,
        h_aliases := rewritten (arrSize sz (-1) t.h_aliases) (buf + strSize t.h_name),
        h_addrtype := t.h_addrtype, h_length := t.h_length,
        h_addr_list := rewritten (arrSize sz t.h_length t.h_addr_list)
          (buf + strSize t.h_name + (strSize t.h_name + arrSize sz (-1) t.h_aliases)) } ∧
    StrAt (CopyHostent sz t buf buflen st).st.mem t.h_name buf ∧
    (0 < sz → ∀ a, t.h_aliases = some a →
      ArrayAt sz (-1) (CopyHostent sz t buf buflen st).st.mem a (buf + strSize t.h_name)) := by
  have n1 := strSize_nonneg t.h_name
  have n2 := arrSize_nonneg sz (-1) t.h_aliases
  have n3 := arrSize_nonneg sz t.h_length t.h_addr_list
  unfold hostSize at h
  have f1 : strSize t.h_name ≤ buflen := by omega
  have f2 : arrSize sz (-1) t.h_aliases ≤ buflen - strSize t.h_name := by omega
  have f3 : arrSize sz t.h_length t.h_addr_list ≤
      buflen - (strSize t.h_name + arrSize sz (-1) t.h_aliases) := by omega
  have e1 : strSize t.h_name ≠ -1 := by omega
  have e2 : arrSize sz (-1) t.h_aliases ≠ -1 := by omega
  have e3 : arrSize sz t.h_length t.h_addr_list ≠ -1 := by omega
  have hb : 0 ≤ buflen := by omega
  have hs1 : strSize t.h_name ≤ INT_MAX := by omega
  have hs2 : arrSize sz (-1) t.h_aliases ≤ INT_MAX := by omega
  have hs3 : arrSize sz t.h_length t.h_addr_list ≤ INT_MAX := by omega
  have w0 : wrapInt buflen = buflen := wrapInt_nonneg hb hI
  have w1 : wrapInt (strSize t.h_name) = strSize t.h_name := wrapInt_nonneg n1 hs1
  have w2 : wrapInt (strSize t.h_name + arrSize sz (-1) t.h_aliases) =
      strSize t.h_name + arrSize sz (-1) t.h_aliases := wrapInt_nonneg (by omega) (by omega)
  have c1 : wrapInt (buflen - strSize t.h_name) = buflen - strSize t.h_name :=
    wrapInt_sub hb hI n1 hs1
  have c2 : wrapInt (buflen - (strSize t.h_name + arrSize sz (-1) t.h_aliases)) =
      buflen - (strSize t.h_name + arrSize sz (-1) t.h_aliases) :=
    wrapInt_sub hb hI (by omega) (by omega)
  have A1 := (CopyString_success t.h_name buf buflen st.mem f1 hs1).2.2
  have S2 := CopyArray_storesIn sz t.h_aliases (-1) (buf + strSize t.h_name)
    (buflen - strSize t.h_name) (CopyString t.h_name buf buflen st.mem).2 (by omega) hs2
  have S3 := CopyArray_storesIn sz t.h_addr_list t.h_length
    (buf + strSize t.h_name + (strSize t.h_name + arrSize sz (-1) t.h_aliases))
    (buflen - (strSize t.h_name + arrSize sz (-1) t.h_aliases))
    (CopyArray sz t.h_aliases (-1) (buf + strSize t.h_name) (buflen - strSize t.h_name)
      (CopyString t.h_name buf buflen st.mem).2).2 (by omega) hs3
  unfold CopyHostent
  simp only [zero_add, sub_zero, w0]
  rw [CopyString_ret t.h_name buf buflen st.mem (by omega) hs1]
  simp only [f1, if_true, e1, if_false, w1, c1]
  rw [CopyArray_ret sz t.h_aliases _ _ _ _ (by omega) hs2]
  simp only [f2, if_true, e2, if_false, w2, c2]
  rw [CopyArray_ret sz t.h_addr_list _ _ _ _ (by omega) hs3]
  simp only [f3, if_true, e3, if_false]
  refine ⟨rfl, ?_, ?_⟩
  · refine StrAt_of_storesIn (StrAt_of_storesIn A1 S2 ?_) S3 ?_ <;>
      (intro x h1 h2; omega)
  · intro hsz a ha
    rw [ha] at f2 hs2 S2 S3 ⊢
    have A2 := CopyArray_content sz hsz a (-1) (buf + strSize t.h_name)
      (buflen - strSize t.h_name) (CopyString t.h_name buf buflen st.mem).2 f2 hs2
    refine ArrayAt_of_storesIn hsz A2 S3 ?_
    intro x h1 h2
    omega

theorem StrCopiedAt_null_iff {m : Mem} {src : Option CStr} {field : Ref CStr} {a : Int}
    (h : StrCopiedAt m src field a) : field = Ref.null ↔ src = none := by
  cases src with
  | none => simpa [StrCopiedAt] using h
  | some s =>
    have : field = Ref.scratch a := h.1
    simp [this]

theorem ArrCopiedAt_null_iff {sz : Nat} {elsize : Int} {m : Mem} {src : Option (List Obj)}
    {field : Ref (List Obj)} {tbl : Int} (h : ArrCopiedAt sz elsize m src field tbl) :
    field = Ref.null ↔ src = none := by
  cases src with
  | none => simpa [ArrCopiedAt] using h
  | some s =>
    have : field = Ref.scratch tbl := h.1
    simp [this]

theorem ArrCopiedAt_intro {sz : Nat} (hsz : 0 < sz) {elsize : Int} {m : Mem}
    {src : Option (List Obj)} {tbl : Int} (h : ∀ a, src = some a → ArrayAt sz elsize m a tbl) :
    ArrCopiedAt sz elsize m src (rewritten (arrSize sz elsize src) tbl) tbl := by
  cases src with
  | none => simp [ArrCopiedAt, rewritten_arrSize sz hsz]
  | some a => exact ⟨by simp [rewritten_arrSize sz hsz], h a rfl⟩

theorem rewritten_arr_null_iff (sz : Nat) (hsz : 0 < sz) (elsize : Int) (src : Option (List Obj))
    (p : Int) : (rewritten (arrSize sz elsize src) p : Ref (List Obj)) = Ref.null ↔ src = none := by
  rw [rewritten_arrSize sz hsz]
  cases src <;> simp

theorem strlen_hugeStr : (strlen hugeStr : Int) = 2147483647 := by
  simp only [strlen, hugeStr, List.length_replicate]
  rfl

theorem mem_log_storeList_of_mem (m : Mem) (a : Int) (vs : List MemVal) (x : Int)
    (h : x ∈ m.log) : x ∈ (m.storeList a vs).log := by
  induction vs generalizing m a with
  | nil => exact h
  | cons v vs ih =>
    apply ih
    simp [Mem.store, h]

theorem mem_log_storeList (m : Mem) (a : Int) (vs : List MemVal) (k : Nat) (hk : k < vs.length) :
    a + (k : Int) ∈ (m.storeList a vs).log := by
  induction vs generalizing m a k with
  | nil => simp at hk
  | cons v vs ih =>
    cases k with
    | zero =>
      show a + ((0 : Nat) : Int) ∈ ((m.store a v).storeList (a + 1) vs).log
      apply mem_log_storeList_of_mem (m.store a v) (a + 1) vs
      simp [Mem.store]
    | succ k =>
      have := ih (m.store a v) (a + 1) k (by simpa using hk)
      rw [show a + ((k + 1 : Nat) : Int) = a + 1 + (k : Int) by push_cast; ring]
      exact this

theorem strcpy_cells (m : Mem) (dst : Int) (s : CStr) (k : Nat) (hk : k < s.length) :
    (strcpy m dst s).cells (dst + (k : Int)) = MemVal.byte (s.get ⟨k, hk⟩) := by
  have hk' : k < (cstrBytes s).length := by
    rw [cstrBytes_length, strlen]; omega
  rw [strcpy, storeList_cells_at m dst (cstrBytes s) k hk']
  simp only [cstrBytes, List.get_eq_getElem]
  rw [List.getElem_append_left (by simpa using hk), List.getElem_map]

theorem CopyString_wrapped (s : CStr) (buf buflen : Int) (m : Mem)
    (hl : (strlen s : Int) = 2147483647) (hb : INT_MIN ≤ buflen) :
    CopyString (some s) buf buflen m = (-2147483648, strcpy m buf s) := by
  have hw : wrapInt (0 + ((2147483647 : Int) + 1)) = -2147483648 := by decide
  have hn : ¬ ((-2147483648 : Int) > buflen) := by
    unfold INT_MIN at hb
    omega
  simp only [CopyString, hl, hw, hn, if_false]

theorem CopyPwd_name_wrapped (t : PasswdSrc) (s : CStr) (buf buflen : Int) (st : State)
    (h1 : t.pw_name = some s) (hl : (strlen s : Int) = 2147483647) (h2 : t.pw_passwd = none)
    (h3 : t.pw_dir = none) (h4 : t.pw_shell = none) (hb : 0 ≤ buflen) (hI : buflen ≤ INT_MAX) :
    (CopyPwd t buf buflen st).ret = 0 ∧
    (CopyPwd t buf buflen st).st.mem = strcpy st.mem buf s ∧
    (CopyPwd t buf buflen st).tgt.pw_name = Ref.null := by
  have w0 : wrapInt buflen = buflen := wrapInt_nonneg hb hI
  have e1 : ¬ ((-2147483648 : Int) = -1) := by decide
  have e2 : ¬ ((0 : Int) = -1) := by decide
  have e3 : ¬ ((-2147483648 : Int) > 0) := by decide
  have hc := CopyString_wrapped s buf buflen st.mem hl (by unfold INT_MIN; omega)
  unfold CopyPwd
  simp only [h1, h2, h3, h4, zero_add, sub_zero, w0, hc, CopyString_none, e1, e2, if_false,
    rewritten, e3]
  exact ⟨trivial, trivial, trivial⟩

theorem hugeStr_get (k : Nat) (hk : k < hugeStr.length) : hugeStr.get ⟨k, hk⟩ = 97 := by
  simp only [hugeStr, List.get_eq_getElem, List.getElem_replicate]

/-! ## The claims -/

set_option maxRecDepth 100000 in
/-- C1 (host record round trip) fails on the code.  The record `hostMany` has
serialized size 2041, which fits the 2048 byte buffer, and CopyHostent returns
0; but `h_addr_list` is `buf + 39` instead of `buf + 29` (the cursor is advanced
by `p += len` instead of `p = buf + len`), so the table and the addresses are
written 10 bytes further on: slot 166 of the table holds `buf + 2047`, and the
four bytes of that address lie at `[2047, 2051)`, not inside the 2048 bytes. -/
theorem CopyHostent_hostMany_address_outside :
    hostSize 8 hostMany = 2041 ∧
    (CopyHostent 8 hostMany 0 2048 State.blank).ret = 0 ∧
    (CopyHostent 8 hostMany 0 2048 State.blank).tgt.h_addr_list = Ref.scratch 39 ∧
    loadPtr 8 (CopyHostent 8 hostMany 0 2048 State.blank).st.mem (39 + 8 * 166) =
      some (some 2047) ∧
    (CopyHostent 8 hostMany 0 2048 State.blank).st.mem.read 2047 4 =
      [MemVal.byte 10, MemVal.byte 0, MemVal.byte 0, MemVal.byte 1] ∧
    ¬ (2047 + 4 ≤ 0 + 2048) := by
  decide

set_option maxRecDepth 100000 in
/-- C2 (host record stays inside its scratch region) fails on the code.  The
record `hostBig` has serialized size 2047 and CopyHostent returns 0 on the 2048
byte buffer; the name and the alias list consume 3 + 8 = 11 bytes, but the
address-list table starts at offset 14, and CopyHostent stores to offset 2049,
outside `[0, 2048)`. -/
theorem CopyHostent_hostBig_stores_outside :
    hostSize 8 hostBig = 2047 ∧
    (CopyHostent 8 hostBig 0 2048 State.blank).ret = 0 ∧
    strSize hostBig.h_name + arrSize 8 (-1) hostBig.h_aliases = 11 ∧
    (CopyHostent 8 hostBig 0 2048 State.blank).tgt.h_addr_list = Ref.scratch 14 ∧
    (∃ x ∈ (CopyHostent 8 hostBig 0 2048 State.blank).st.mem.log, ¬ (x < 0 + 2048)) := by
  refine ⟨by decide, by decide, by decide, by decide, 2049, by decide, by decide⟩

/-- C3 (status-plus-out-pointer strategy reports absent entries) fails on the
code.  When the primitive returns status 0 and stores NULL through its
out-pointer (no matching entry), each of the six lookups returns the
thread-owned record, with whatever an earlier lookup left in it, instead of
NULL: the out-pointer is never examined. -/
theorem status_out_pointer_branch_ignores_out_pointer :
    TclpGetPwNam_R5 ⟨0, none, stalePwd⟩ = some stalePwd ∧
    TclpGetPwUid_R5 ⟨0, none, stalePwd⟩ = some stalePwd ∧
    TclpGetGrNam_R5 ⟨0, none, staleGrp⟩ = some staleGrp ∧
    TclpGetGrGid_R5 ⟨0, none, staleGrp⟩ = some staleGrp ∧
    TclpGetHostByName_R6 ⟨0, none, staleHost⟩ = some staleHost ∧
    TclpGetHostByAddr_R8 ⟨0, none, staleHost⟩ = some staleHost :=
  ⟨rfl, rfl, rfl, rfl, rfl, rfl⟩

/-- C4 (user record round trip): when the four string fields of a passwd record
fit (`pwdSize t <= buflen`, `buflen` an `int`), CopyPwd returns 0; each absent field is NULL
afterwards and each other field points to a byte-for-byte copy of the original
string with its terminator; the copies start at `buf`, `buf + size(name)`,
`buf + size(name) + size(passwd)` and `buf + size(name) + size(passwd) +
size(dir)`, so they lie back to back in the order name, passwd, dir, shell,
do not overlap, and end at `buf + pwdSize t`, inside the buffer. -/
theorem CopyPwd_round_trip (t : PasswdSrc) (buf buflen : Int) (st : State)
    (h : pwdSize t ≤ buflen) (hI : buflen ≤ INT_MAX) :
    (CopyPwd t buf buflen st).ret = 0 ∧
    StrCopiedAt (CopyPwd t buf buflen st).st.mem t.pw_name (CopyPwd t buf buflen st).tgt.pw_name
      buf ∧
    StrCopiedAt (CopyPwd t buf buflen st).st.mem t.pw_passwd
      (CopyPwd t buf buflen st).tgt.pw_passwd (buf + strSize t.pw_name) ∧
    StrCopiedAt (CopyPwd t buf buflen st).st.mem t.pw_dir (CopyPwd t buf buflen st).tgt.pw_dir
      (buf + (strSize t.pw_name + strSize t.pw_passwd)) ∧
    StrCopiedAt (CopyPwd t buf buflen st).st.mem t.pw_shell (CopyPwd t buf buflen st).tgt.pw_shell
      (buf + (strSize t.pw_name + strSize t.pw_passwd + strSize t.pw_dir)) ∧
    buf + (strSize t.pw_name + strSize t.pw_passwd + strSize t.pw_dir) + strSize t.pw_shell ≤
      buf + buflen := by
  have hb : 0 ≤ buflen := le_trans (pwdSize_nonneg t) h
  obtain ⟨hret, -, htgt, a1, a2, a3, a4⟩ := (CopyPwd_spec t buf buflen st hb hI (le_trans h hI)).2.1 h
  rw [htgt]
  refine ⟨hret, StrCopiedAt_intro a1, StrCopiedAt_intro a2, StrCopiedAt_intro a3,
    StrCopiedAt_intro a4, ?_⟩
  unfold pwdSize at h
  omega

theorem CopyPwd_round_trip_witness :
    pwdSize pwdRoot ≤ 2048 ∧ (2048 : Int) ≤ INT_MAX ∧
    ((CopyPwd pwdRoot (0 : Int) (2048 : Int) State.blank).ret = 0 ∧
    StrCopiedAt (CopyPwd pwdRoot (0 : Int) (2048 : Int) State.blank).st.mem pwdRoot.pw_name (CopyPwd pwdRoot (0 : Int) (2048 : Int) State.blank).tgt.pw_name
      (0 : Int) ∧
    StrCopiedAt (CopyPwd pwdRoot (0 : Int) (2048 : Int) State.blank).st.mem pwdRoot.pw_passwd
      (CopyPwd pwdRoot (0 : Int) (2048 : Int) State.blank).tgt.pw_passwd ((0 : Int) + strSize pwdRoot.pw_name) ∧
    StrCopiedAt (CopyPwd pwdRoot (0 : Int) (2048 : Int) State.blank).st.mem pwdRoot.pw_dir (CopyPwd pwdRoot (0 : Int) (2048 : Int) State.blank).tgt.pw_dir
      ((0 : Int) + (strSize pwdRoot.pw_name + strSize pwdRoot.pw_passwd)) ∧
    StrCopiedAt (CopyPwd pwdRoot (0 : Int) (2048 : Int) State.blank).st.mem pwdRoot.pw_shell (CopyPwd pwdRoot (0 : Int) (2048 : Int) State.blank).tgt.pw_shell
      ((0 : Int) + (strSize pwdRoot.pw_name + strSize pwdRoot.pw_passwd + strSize pwdRoot.pw_dir)) ∧
    (0 : Int) + (strSize pwdRoot.pw_name + strSize pwdRoot.pw_passwd + strSize pwdRoot.pw_dir) + strSize pwdRoot.pw_shell ≤
      (0 : Int) + (2048 : Int)) :=
  ⟨by decide, by decide, CopyPwd_round_trip pwdRoot 0 2048 State.blank (by decide) (by decide)⟩

/-- C5 (group record round trip): when the fields of a group record fit
(`grpSize sz t <= buflen`, `buflen` an `int`), CopyGrp returns 0; `gr_name` and `gr_passwd` point
to exact copies of the original strings (NULL when absent); and `gr_mem` points
to a table, placed after the two strings and ending inside the buffer, whose
slot `k` for `k < N` holds the address of an exact copy of member name `k` and
whose slot `N` holds NULL. -/
theorem CopyGrp_round_trip (sz : Nat) (hsz : 0 < sz) (t : GroupSrc) (buf buflen : Int) (st : State)
    (h : grpSize sz t ≤ buflen) (hI : buflen ≤ INT_MAX) :
    (CopyGrp sz t buf buflen st).ret = 0 ∧
    StrCopiedAt (CopyGrp sz t buf buflen st).st.mem t.gr_name
      (CopyGrp sz t buf buflen st).tgt.gr_name buf ∧
    StrCopiedAt (CopyGrp sz t buf buflen st).st.mem t.gr_passwd
      (CopyGrp sz t buf buflen st).tgt.gr_passwd (buf + strSize t.gr_name) ∧
    ArrCopiedAt sz (-1) (CopyGrp sz t buf buflen st).st.mem t.gr_mem
      (CopyGrp sz t buf buflen st).tgt.gr_mem (buf + (strSize t.gr_name + strSize t.gr_passwd)) ∧
    buf + (strSize t.gr_name + strSize t.gr_passwd) + arrSize sz (-1) t.gr_mem ≤ buf + buflen := by
  have hb : 0 ≤ buflen := le_trans (grpSize_nonneg sz t) h
  obtain ⟨hret, -, htgt, a1, a2, a3⟩ := (CopyGrp_spec sz t buf buflen st hb hI (le_trans h hI)).2.1 h
  refine ⟨hret, ?_, ?_, ?_, ?_⟩
  · rw [htgt]; exact StrCopiedAt_intro a1
  · rw [htgt]; exact StrCopiedAt_intro a2
  · rw [htgt]
    cases hm : t.gr_mem with
    | none => simp [ArrCopiedAt, rewritten_arrSize sz hsz]
    | some a =>
      refine ⟨by simp [rewritten_arrSize sz hsz], ?_⟩
      have := a3 hsz a hm
      exact this
  · unfold grpSize at h
    omega

theorem CopyGrp_round_trip_witness :
    0 < (8 : Nat) ∧ grpSize 8 grpWheel ≤ 2048 ∧ (2048 : Int) ≤ INT_MAX ∧
    ((CopyGrp (8 : Nat) grpWheel (0 : Int) (2048 : Int) State.blank).ret = 0 ∧
    StrCopiedAt (CopyGrp (8 : Nat) grpWheel (0 : Int) (2048 : Int) State.blank).st.mem grpWheel.gr_name
      (CopyGrp (8 : Nat) grpWheel (0 : Int) (2048 : Int) State.blank).tgt.gr_name (0 : Int) ∧
    StrCopiedAt (CopyGrp (8 : Nat) grpWheel (0 : Int) (2048 : Int) State.blank).st.mem grpWheel.gr_passwd
      (CopyGrp (8 : Nat) grpWheel (0 : Int) (2048 : Int) State.blank).tgt.gr_passwd ((0 : Int) + strSize grpWheel.gr_name) ∧
    ArrCopiedAt (8 : Nat) (-1) (CopyGrp (8 : Nat) grpWheel (0 : Int) (2048 : Int) State.blank).st.mem grpWheel.gr_mem
      (CopyGrp (8 : Nat) grpWheel (0 : Int) (2048 : Int) State.blank).tgt.gr_mem ((0 : Int) + (strSize grpWheel.gr_name + strSize grpWheel.gr_passwd)) ∧
    (0 : Int) + (strSize grpWheel.gr_name + strSize grpWheel.gr_passwd) + arrSize (8 : Nat) (-1) grpWheel.gr_mem ≤ (0 : Int) + (2048 : Int)) :=
  ⟨by decide, by decide, by decide,
    CopyGrp_round_trip 8 (by decide) grpWheel 0 2048 State.blank (by decide) (by decide)⟩

/-- C6 (user and group records stay inside their scratch region) fails on the
code.  For the record `pwdHuge`, whose name has 2^31 - 1 characters, and the
2048 byte buffer, `len += strlen(src) + 1` in CopyString wraps to INT_MIN, the
test `len > buflen` does not fire and the name is copied: CopyPwd returns 0,
offset 2048 of the buffer, outside `[0, 2048)`, is stored to and holds a
character of the name afterwards. -/
theorem CopyPwd_pwdHuge_stores_outside :
    pwdSize pwdHuge = 2147483648 ∧
    (CopyPwd pwdHuge 0 2048 State.blank).ret = 0 ∧
    (CopyPwd pwdHuge 0 2048 State.blank).st.mem.cells 2048 = MemVal.byte 97 ∧
    (2048 : Int) ∈ (CopyPwd pwdHuge 0 2048 State.blank).st.mem.log ∧
    State.blank.mem.cells 2048 = MemVal.undef ∧ ¬ ((2048 : Int) < 0 + 2048) := by
  obtain ⟨h1, h2, -⟩ := CopyPwd_name_wrapped pwdHuge hugeStr 0 2048 State.blank rfl strlen_hugeStr
    rfl rfl rfl (by decide) (by decide)
  have hk : 2048 < hugeStr.length := by
    simp only [hugeStr, List.length_replicate]
    decide
  have hk' : 2048 < (cstrBytes hugeStr).length := by
    rw [cstrBytes_length, strlen]; omega
  refine ⟨?_, h1, ?_, ?_, rfl, by decide⟩
  · simp only [pwdSize, pwdHuge, strSize, strlen_hugeStr]
    decide
  · rw [h2]
    have := strcpy_cells State.blank.mem 0 hugeStr 2048 hk
    rw [hugeStr_get, show (0 : Int) + ((2048 : Nat) : Int) = 2048 by decide] at this
    exact this
  · rw [h2]
    have := mem_log_storeList State.blank.mem 0 (cstrBytes hugeStr) 2048 hk'
    rw [show (0 : Int) + ((2048 : Nat) : Int) = 2048 by decide] at this
    exact this

/-- C8 (pack-string success): when `strlen S < buflen` for an `int`
`buflen`, CopyString returns
`strlen S + 1`, the first `strlen S + 1` bytes of the destination are the
characters of `S` followed by the zero terminator (so reading the string back
from the destination gives `S`), every store is inside that prefix, and every
byte outside the prefix is unchanged. -/
theorem CopyString_packs_string (S : CStr) (buf buflen : Int) (m : Mem)
    (h : (strlen S : Int) < buflen) (hI : buflen ≤ INT_MAX) :
    (CopyString (some S) buf buflen m).1 = (strlen S : Int) + 1 ∧
    (CopyString (some S) buf buflen m).2.read buf (strlen S + 1) =
      S.map MemVal.byte ++ [MemVal.byte 0] ∧
    ((∀ b ∈ S, b ≠ 0) →
      readCStr (CopyString (some S) buf buflen m).2 buf (strlen S + 1) = some S) ∧
    StoresIn m (CopyString (some S) buf buflen m).2
      (fun x => buf ≤ x ∧ x < buf + ((strlen S : Int) + 1)) := by
  have hs := CopyString_success (some S) buf buflen m (by simp only [strSize]; omega)
    (by simp only [strSize]; omega)
  refine ⟨hs.1, hs.2.2 S rfl, fun hz => readCStr_of_read _ S buf hz (hs.2.2 S rfl), hs.2.1⟩

theorem CopyString_packs_string_witness :
    ((strlen [104, 105] : Nat) : Int) < 3 ∧ (3 : Int) ≤ INT_MAX ∧
    ((CopyString (some ([104, 105] : CStr)) (0 : Int) (3 : Int) Mem.blank).1 = (strlen ([104, 105] : CStr) : Int) + 1 ∧
    (CopyString (some ([104, 105] : CStr)) (0 : Int) (3 : Int) Mem.blank).2.read (0 : Int) (strlen ([104, 105] : CStr) + 1) =
      ([104, 105] : CStr).map MemVal.byte ++ [MemVal.byte 0] ∧
    ((∀ b ∈ ([104, 105] : CStr), b ≠ 0) →
      readCStr (CopyString (some ([104, 105] : CStr)) (0 : Int) (3 : Int) Mem.blank).2 (0 : Int) (strlen ([104, 105] : CStr) + 1) = some ([104, 105] : CStr)) ∧
    StoresIn Mem.blank (CopyString (some ([104, 105] : CStr)) (0 : Int) (3 : Int) Mem.blank).2
      (fun x => (0 : Int) ≤ x ∧ x < (0 : Int) + ((strlen ([104, 105] : CStr) : Int) + 1))) :=
  ⟨by decide, by decide,
    CopyString_packs_string [104, 105] 0 3 Mem.blank (by decide) (by decide)⟩

/-- C9 (pack-string overflow) fails on the code.  For the string `hugeStr` of
2^31 - 1 characters and capacity 2048, `len += strlen(src) + 1` wraps to
INT_MIN, the test `len > buflen` does not fire, and CopyString copies the
string and returns -2147483648 instead of -1: offset 2048 of the destination,
untouched before, holds a character of the string afterwards. -/
theorem CopyString_hugeStr_copied :
    (2048 : Int) ≤ (strlen hugeStr : Int) ∧
    (CopyString (some hugeStr) 0 2048 Mem.blank).1 = -2147483648 ∧
    (CopyString (some hugeStr) 0 2048 Mem.blank).2.cells 2048 = MemVal.byte 97 ∧
    Mem.blank.cells 2048 = MemVal.undef := by
  have hc := CopyString_wrapped hugeStr 0 2048 Mem.blank strlen_hugeStr (by decide)
  have hk : 2048 < hugeStr.length := by
    simp only [hugeStr, List.length_replicate]
    decide
  have hcell := strcpy_cells Mem.blank 0 hugeStr 2048 hk
  rw [hugeStr_get, show (0 : Int) + ((2048 : Nat) : Int) = 2048 by decide] at hcell
  have h1 : (CopyString (some hugeStr) 0 2048 Mem.blank).1 = -2147483648 := by rw [hc]
  have h2 : (CopyString (some hugeStr) 0 2048 Mem.blank).2 = strcpy Mem.blank 0 hugeStr := by
    rw [hc]
  rw [h1, h2, strlen_hugeStr]
  exact ⟨by decide, rfl, hcell, rfl⟩

/-- C10 (pack-array layout for strings): for an array `A` of `N` strings and
`buflen >= (N+1)*sizeof(char*) + sum (strlen A[j] + 1)`, `buflen` an `int`,
CopyArray with
`elsize = -1` returns that sum; slot `j < N` of the table at `buf` holds the
address `buf + (N+1)*sizeof(char*) + sum over k < j of (strlen A[k] + 1)`; the
bytes at that address are `A[j]` with its terminator; slot `N` holds NULL; and
the payload area read in order is the concatenation of the strings of `A`, each
with its terminator. -/
theorem CopyArray_string_layout (sz : Nat) (hsz : 0 < sz) (A : List CStr) (buf buflen : Int)
    (m : Mem)
    (h : ((sz * (A.length + 1) : Nat) : Int) + (A.map fun s => (strlen s : Int) + 1).sum ≤ buflen)
    (hI : buflen ≤ INT_MAX) :
    (CopyArray sz (some A) (-1) buf buflen m).1 =
      ((sz * (A.length + 1) : Nat) : Int) + (A.map fun s => (strlen s : Int) + 1).sum ∧
    (∀ j (hj : j < A.length),
      loadPtr sz (CopyArray sz (some A) (-1) buf buflen m).2 (buf + ((sz * j : Nat) : Int)) =
        some (some (buf + ((sz * (A.length + 1) : Nat) : Int) +
          ((A.take j).map fun s => (strlen s : Int) + 1).sum)) ∧
      (CopyArray sz (some A) (-1) buf buflen m).2.read
          (buf + ((sz * (A.length + 1) : Nat) : Int) +
            ((A.take j).map fun s => (strlen s : Int) + 1).sum)
          (strlen (A.get ⟨j, hj⟩) + 1) =
        (A.get ⟨j, hj⟩).map MemVal.byte ++ [MemVal.byte 0]) ∧
    loadPtr sz (CopyArray sz (some A) (-1) buf buflen m).2
      (buf + ((sz * A.length : Nat) : Int)) = some none ∧
    (CopyArray sz (some A) (-1) buf buflen m).2.read (buf + ((sz * (A.length + 1) : Nat) : Int))
        (A.map fun s => strlen s + 1).sum =
      (A.map fun s => s.map MemVal.byte ++ [MemVal.byte 0]).flatten := by
  have hfit : arrSize sz (-1) (some A) ≤ buflen := by
    simp only [arrSize, payloadSize_str]; exact h
  have hb : 0 ≤ buflen := le_trans (arrSize_nonneg sz (-1) (some A)) hfit
  have hc := CopyArray_content sz hsz A (-1) buf buflen m hfit (le_trans hfit hI)
  refine ⟨?_, ?_, hc.2, ?_⟩
  · rw [CopyArray_ret sz (some A) (-1) buf buflen m hb (le_trans hfit hI)]
    rw [if_pos hfit]
    simp only [arrSize, payloadSize_str]
  · intro j hj
    have := hc.1 j hj
    simp only [payloadSize_str, elemBytes_str, cstrBytes_length] at this
    exact this
  · have := ArrayAt_read_payload hc
    have e1 : (fun s : CStr => strlen s + 1) = List.length ∘ elemBytes (-1) := by
      funext s
      simp [elemBytes_str, cstrBytes_length]
    have e2 : (fun s : CStr => s.map MemVal.byte ++ [MemVal.byte 0]) = elemBytes (-1) := by
      funext s
      simp [elemBytes_str, cstrBytes]
    rw [e1, e2, ← List.map_map]
    exact this

theorem CopyArray_string_layout_witness :
    0 < (8 : Nat) ∧
    (((8 : Nat) * (([[97], [98, 99]] : List CStr).length + 1) : Nat) : Int) +
      (([[97], [98, 99]] : List CStr).map fun s => (strlen s : Int) + 1).sum ≤ 29 ∧
    (29 : Int) ≤ INT_MAX ∧
    ((CopyArray (8 : Nat) (some ([[97], [98, 99]] : List CStr)) (-1) (0 : Int) (29 : Int) Mem.blank).1 =
      (((8 : Nat) * (([[97], [98, 99]] : List CStr).length + 1) : Nat) : Int) + (([[97], [98, 99]] : List CStr).map fun s => (strlen s : Int) + 1).sum ∧
    (∀ j (hj : j < ([[97], [98, 99]] : List CStr).length),
      loadPtr (8 : Nat) (CopyArray (8 : Nat) (some ([[97], [98, 99]] : List CStr)) (-1) (0 : Int) (29 : Int) Mem.blank).2 ((0 : Int) + (((8 : Nat) * j : Nat) : Int)) =
        some (some ((0 : Int) + (((8 : Nat) * (([[97], [98, 99]] : List CStr).length + 1) : Nat) : Int) +
          ((([[97], [98, 99]] : List CStr).take j).map fun s => (strlen s : Int) + 1).sum)) ∧
      (CopyArray (8 : Nat) (some ([[97], [98, 99]] : List CStr)) (-1) (0 : Int) (29 : Int) Mem.blank).2.read
          ((0 : Int) + (((8 : Nat) * (([[97], [98, 99]] : List CStr).length + 1) : Nat) : Int) +
            ((([[97], [98, 99]] : List CStr).take j).map fun s => (strlen s : Int) + 1).sum)
          (strlen (([[97], [98, 99]] : List CStr).get ⟨j, hj⟩) + 1) =
        (([[97], [98, 99]] : List CStr).get ⟨j, hj⟩).map MemVal.byte ++ [MemVal.byte 0]) ∧
    loadPtr (8 : Nat) (CopyArray (8 : Nat) (some ([[97], [98, 99]] : List CStr)) (-1) (0 : Int) (29 : Int) Mem.blank).2
      ((0 : Int) + (((8 : Nat) * ([[97], [98, 99]] : List CStr).length : Nat) : Int)) = some none ∧
    (CopyArray (8 : Nat) (some ([[97], [98, 99]] : List CStr)) (-1) (0 : Int) (29 : Int) Mem.blank).2.read ((0 : Int) + (((8 : Nat) * (([[97], [98, 99]] : List CStr).length + 1) : Nat) : Int))
        (([[97], [98, 99]] : List CStr).map fun s => strlen s + 1).sum =
      (([[97], [98, 99]] : List CStr).map fun s => s.map MemVal.byte ++ [MemVal.byte 0]).flatten) :=
  ⟨by decide, by decide, by decide,
    CopyArray_string_layout 8 (by decide) [[97], [98, 99]] 0 29 Mem.blank (by decide)
      (by decide)⟩

/-- C11 (pack-array layout for fixed-size blobs): for `elsize >= 0`, an array
`A` of `N` blobs of `elsize` bytes each and
`buflen >= (N+1)*sizeof(char*) + N*elsize`, `buflen` an `int`, CopyArray returns
`(N+1)*sizeof(char*) + N*elsize`; slot `j < N` of the table at `buf` holds the
address `buf + (N+1)*sizeof(char*) + j*elsize`, and the `elsize` bytes there are
the bytes of blob `A[j]`, whatever their values; slot `N` holds NULL. -/
theorem CopyArray_blob_layout (sz : Nat) (hsz : 0 < sz) (elsize : Int) (he : 0 ≤ elsize)
    (A : List Obj) (hA : ∀ e ∈ A, (e.length : Int) = elsize) (buf buflen : Int) (m : Mem)
    (h : ((sz * (A.length + 1) : Nat) : Int) + (A.length : Int) * elsize ≤ buflen)
    (hI : buflen ≤ INT_MAX) :
    (CopyArray sz (some A) elsize buf buflen m).1 =
      ((sz * (A.length + 1) : Nat) : Int) + (A.length : Int) * elsize ∧
    (∀ j (hj : j < A.length),
      loadPtr sz (CopyArray sz (some A) elsize buf buflen m).2 (buf + ((sz * j : Nat) : Int)) =
        some (some (buf + ((sz * (A.length + 1) : Nat) : Int) + (j : Int) * elsize)) ∧
      (CopyArray sz (some A) elsize buf buflen m).2.read
          (buf + ((sz * (A.length + 1) : Nat) : Int) + (j : Int) * elsize) elsize.toNat =
        (A.get ⟨j, hj⟩).map MemVal.byte) ∧
    loadPtr sz (CopyArray sz (some A) elsize buf buflen m).2
      (buf + ((sz * A.length : Nat) : Int)) = some none := by
  have hfit : arrSize sz elsize (some A) ≤ buflen := by
    simp only [arrSize, payloadSize_blob elsize he]; exact h
  have hb : 0 ≤ buflen := le_trans (arrSize_nonneg sz elsize (some A)) hfit
  have hc := CopyArray_content sz hsz A elsize buf buflen m hfit (le_trans hfit hI)
  refine ⟨?_, ?_, hc.2⟩
  · rw [CopyArray_ret sz (some A) elsize buf buflen m hb (le_trans hfit hI), if_pos hfit]
    simp only [arrSize, payloadSize_blob elsize he]
  · intro j hj
    have := hc.1 j hj
    have hl := hA (A.get ⟨j, hj⟩) (List.get_mem A j hj)
    have htake : ((A.take j).length : Int) = (j : Int) := by
      rw [List.length_take]; omega
    rw [payloadSize_blob elsize he, htake, elemBytes_blob elsize he _ hl] at this
    have hlen : ((A.get ⟨j, hj⟩).map MemVal.byte).length = elsize.toNat := by
      rw [List.length_map]; omega
    rw [hlen] at this
    exact this

theorem CopyArray_blob_layout_witness :
    0 < (8 : Nat) ∧ (0 : Int) ≤ 4 ∧
    (∀ e ∈ ([[127, 0, 0, 1], [10, 0, 0, 2]] : List Obj), (e.length : Int) = 4) ∧
    ((((8 : Nat) * (([[127, 0, 0, 1], [10, 0, 0, 2]] : List Obj).length + 1) : Nat) : Int) +
      (([[127, 0, 0, 1], [10, 0, 0, 2]] : List Obj).length : Int) * 4 ≤ 32) ∧
    (32 : Int) ≤ INT_MAX ∧
    ((CopyArray (8 : Nat) (some ([[127, 0, 0, 1], [10, 0, 0, 2]] : List Obj)) (4 : Int) (0 : Int) (32 : Int) Mem.blank).1 =
      (((8 : Nat) * (([[127, 0, 0, 1], [10, 0, 0, 2]] : List Obj).length + 1) : Nat) : Int) + (([[127, 0, 0, 1], [10, 0, 0, 2]] : List Obj).length : Int) * (4 : Int) ∧
    (∀ j (hj : j < ([[127, 0, 0, 1], [10, 0, 0, 2]] : List Obj).length),
      loadPtr (8 : Nat) (CopyArray (8 : Nat) (some ([[127, 0, 0, 1], [10, 0, 0, 2]] : List Obj)) (4 : Int) (0 : Int) (32 : Int) Mem.blank).2 ((0 : Int) + (((8 : Nat) * j : Nat) : Int)) =
        some (some ((0 : Int) + (((8 : Nat) * (([[127, 0, 0, 1], [10, 0, 0, 2]] : List Obj).length + 1) : Nat) : Int) + (j : Int) * (4 : Int))) ∧
      (CopyArray (8 : Nat) (some ([[127, 0, 0, 1], [10, 0, 0, 2]] : List Obj)) (4 : Int) (0 : Int) (32 : Int) Mem.blank).2.read
          ((0 : Int) + (((8 : Nat) * (([[127, 0, 0, 1], [10, 0, 0, 2]] : List Obj).length + 1) : Nat) : Int) + (j : Int) * (4 : Int)) (4 : Int).toNat =
        (([[127, 0, 0, 1], [10, 0, 0, 2]] : List Obj).get ⟨j, hj⟩).map MemVal.byte) ∧
    loadPtr (8 : Nat) (CopyArray (8 : Nat) (some ([[127, 0, 0, 1], [10, 0, 0, 2]] : List Obj)) (4 : Int) (0 : Int) (32 : Int) Mem.blank).2
      ((0 : Int) + (((8 : Nat) * ([[127, 0, 0, 1], [10, 0, 0, 2]] : List Obj).length : Nat) : Int)) = some none) :=
  ⟨by decide, by decide, by decide, by decide, by decide,
    CopyArray_blob_layout 8 (by decide) 4 (by decide) [[127, 0, 0, 1], [10, 0, 0, 2]] (by decide)
      0 32 Mem.blank (by decide) (by decide)⟩

/-- C13 (pack-array edge cases): for an empty array and
`buflen >= sizeof(char*)`, `buflen` an `int`, CopyArray performs the single assignment
`*(char **)buf = NULL`, so the slot at `buf` holds NULL and every store is
inside that slot, and returns `sizeof(char*)`; for an absent array and every
`buflen` it leaves memory as it was and returns 0. -/
theorem CopyArray_empty_and_absent (sz : Nat) (elsize buf buflen : Int) (m : Mem)
    (h : (sz : Int) ≤ buflen) (hI : buflen ≤ INT_MAX) :
    CopyArray sz (some []) elsize buf buflen m = ((sz : Int), storePtr sz m buf none) ∧
    StoresIn m (CopyArray sz (some []) elsize buf buflen m).2
      (fun x => buf ≤ x ∧ x < buf + (sz : Int)) ∧
    (0 < sz → loadPtr sz (CopyArray sz (some []) elsize buf buflen m).2 buf = some none) ∧
    ∀ buflen' : Int, CopyArray sz none elsize buf buflen' m = (0, m) := by
  have e : CopyArray sz (some []) elsize buf buflen m = ((sz : Int), storePtr sz m buf none) := by
    rw [CopyArray_some_header sz [] elsize buf buflen m (by simpa using h)
      (by simpa using le_trans h hI)]
    simp [CopyArray.loop]
  rw [e]
  refine ⟨rfl, ?_, fun hsz => loadPtr_storePtr hsz m buf none, fun _ => rfl⟩
  have := storeList_storesIn m buf (ptrBytes sz none)
  rw [ptrBytes_length] at this
  exact this

theorem CopyArray_empty_and_absent_witness :
    (((8 : Nat) : Int) ≤ 8) ∧ (8 : Int) ≤ INT_MAX ∧
    (CopyArray (8 : Nat) (some []) (-1 : Int) (0 : Int) (8 : Int) Mem.blank = (((8 : Nat) : Int), storePtr (8 : Nat) Mem.blank (0 : Int) none) ∧
    StoresIn Mem.blank (CopyArray (8 : Nat) (some []) (-1 : Int) (0 : Int) (8 : Int) Mem.blank).2
      (fun x => (0 : Int) ≤ x ∧ x < (0 : Int) + ((8 : Nat) : Int)) ∧
    (0 < (8 : Nat) → loadPtr (8 : Nat) (CopyArray (8 : Nat) (some []) (-1 : Int) (0 : Int) (8 : Int) Mem.blank).2 (0 : Int) = some none) ∧
    ∀ buflen' : Int, CopyArray (8 : Nat) none (-1 : Int) (0 : Int) buflen' Mem.blank = (0, Mem.blank)) :=
  ⟨by decide, by decide,
    CopyArray_empty_and_absent 8 (-1) 0 8 Mem.blank (by decide) (by decide)⟩

/-- C14 (manual-fallback result): in the lock-and-copy branch each of the six
lookups returns NULL if and only if the classic primitive returned NULL or the
record copier (CopyPwd, CopyGrp, CopyHostent on the 2048 byte thread buffer)
returned -1; otherwise it returns the thread-owned record as the copier left
it, so its string and array fields are the copier's rewritten pointers, and its
scalar fields (pw_uid, pw_gid; gr_gid; h_addrtype, h_length) are those of the
primitive's result.  A record for which the copier failed is never returned. -/
theorem fallback_lookup_result (sz : Nat) (pw : Option PasswdSrc) (gr : Option GroupSrc)
    (he : Option HostentSrc) (tp : PasswdRec) (tg : GroupRec) (th : HostentRec)
    (pbuf gbuf hbuf : Int) (st : State) :
    FallbackResult pw (fun r => CopyPwd r pbuf 2048 st)
      (TclpGetPwNam_fallback pw tp pbuf st).result ∧
    FallbackResult pw (fun r => CopyPwd r pbuf 2048 st)
      (TclpGetPwUid_fallback pw tp pbuf st).result ∧
    FallbackResult gr (fun r => CopyGrp sz r gbuf 2048 st)
      (TclpGetGrNam_fallback sz gr tg gbuf st).result ∧
    FallbackResult gr (fun r => CopyGrp sz r gbuf 2048 st)
      (TclpGetGrGid_fallback sz gr tg gbuf st).result ∧
    FallbackResult he (fun r => CopyHostent sz r hbuf 2048 st)
      (TclpGetHostByName_fallback sz he th hbuf st).result ∧
    FallbackResult he (fun r => CopyHostent sz r hbuf 2048 st)
      (TclpGetHostByAddr_fallback sz he th hbuf st).result ∧
    (∀ r : PasswdSrc, (CopyPwd r pbuf 2048 st).tgt.pw_uid = r.pw_uid ∧
      (CopyPwd r pbuf 2048 st).tgt.pw_gid = r.pw_gid) ∧
    (∀ r : GroupSrc, (CopyGrp sz r gbuf 2048 st).tgt.gr_gid = r.gr_gid) ∧
    (∀ r : HostentSrc, (CopyHostent sz r hbuf 2048 st).tgt.h_addrtype = r.h_addrtype ∧
      (CopyHostent sz r hbuf 2048 st).tgt.h_length = r.h_length) := by
  refine ⟨?_, ?_, ?_, ?_, ?_, ?_, fun r => ?_, fun r => CopyGrp_scalars sz r gbuf 2048 st,
    fun r => CopyHostent_scalars sz r hbuf 2048 st⟩
  · have := FallbackResult_intro pw (fun r => CopyPwd r pbuf 2048 st)
    cases pw <;> exact this
  · have := FallbackResult_intro pw (fun r => CopyPwd r pbuf 2048 st)
    cases pw <;> exact this
  · have := FallbackResult_intro gr (fun r => CopyGrp sz r gbuf 2048 st)
    cases gr <;> exact this
  · have := FallbackResult_intro gr (fun r => CopyGrp sz r gbuf 2048 st)
    cases gr <;> exact this
  · have := FallbackResult_intro he (fun r => CopyHostent sz r hbuf 2048 st)
    cases he <;> exact this
  · have := FallbackResult_intro he (fun r => CopyHostent sz r hbuf 2048 st)
    cases he <;> exact this
  · exact ⟨(CopyPwd_scalars r pbuf 2048 st).1, (CopyPwd_scalars r pbuf 2048 st).2.1⟩

/-- C15 (user-record frame): on every input and every `buflen`, whether CopyPwd
returns 0 or -1, `pw_uid` and `pw_gid` keep the values of the shallow copy and
`pw_gecos` still is the pointer of the shallow copy (it is not rewritten); and
the gecos string is not copied: the value returned, the memory and `errno` do
not depend on it. -/
theorem CopyPwd_frame (t : PasswdSrc) (buf buflen : Int) (st : State) :
    (CopyPwd t buf buflen st).tgt.pw_uid = t.pw_uid ∧
    (CopyPwd t buf buflen st).tgt.pw_gid = t.pw_gid ∧
    (CopyPwd t buf buflen st).tgt.pw_gecos = Ref.ofSrc t.pw_gecos ∧
    ∀ g : Option CStr,
      (CopyPwd { t with pw_gecos := g } buf buflen st).ret = (CopyPwd t buf buflen st).ret ∧
      (CopyPwd { t with pw_gecos := g } buf buflen st).st = (CopyPwd t buf buflen st).st := by
  obtain ⟨h1, h2, h3⟩ := CopyPwd_scalars t buf buflen st
  refine ⟨h1, h2, h3, fun g => ?_⟩
  unfold CopyPwd
  simp only []
  split_ifs <;> exact ⟨rfl, rfl⟩

/-- C16 (lock discipline of the manual fallback): for each of the six
lock-and-copy lookups and on every path (primitive absent, copier failure,
success) the trace of events has exactly one `lock`, before the classic call,
and exactly one `unlock`, after the classic call and after the shallow copy and
the record copier when they run; the trace ends with the `return`; and the lock
is not held at the return. -/
theorem fallback_lock_discipline (sz : Nat) (pw : Option PasswdSrc) (gr : Option GroupSrc)
    (he : Option HostentSrc) (tp : PasswdRec) (tg : GroupRec) (th : HostentRec)
    (pbuf gbuf hbuf : Int) (st : State) :
    (LockDiscipline (TclpGetPwNam_fallback pw tp pbuf st).run.trace ∧
      (TclpGetPwNam_fallback pw tp pbuf st).run.held = false) ∧
    (LockDiscipline (TclpGetPwUid_fallback pw tp pbuf st).run.trace ∧
      (TclpGetPwUid_fallback pw tp pbuf st).run.held = false) ∧
    (LockDiscipline (TclpGetGrNam_fallback sz gr tg gbuf st).run.trace ∧
      (TclpGetGrNam_fallback sz gr tg gbuf st).run.held = false) ∧
    (LockDiscipline (TclpGetGrGid_fallback sz gr tg gbuf st).run.trace ∧
      (TclpGetGrGid_fallback sz gr tg gbuf st).run.held = false) ∧
    (LockDiscipline (TclpGetHostByName_fallback sz he th hbuf st).run.trace ∧
      (TclpGetHostByName_fallback sz he th hbuf st).run.held = false) ∧
    (LockDiscipline (TclpGetHostByAddr_fallback sz he th hbuf st).run.trace ∧
      (TclpGetHostByAddr_fallback sz he th hbuf st).run.held = false) := by
  have hA : LockDiscipline [Event.lock, Event.classicCall, Event.unlock, Event.ret] := by
    unfold LockDiscipline; decide
  have hB : LockDiscipline [Event.lock, Event.classicCall, Event.shallowCopy, Event.deepCopy,
      Event.unlock, Event.ret] := by
    unfold LockDiscipline; decide
  refine ⟨?_, ?_, ?_, ?_, ?_, ?_⟩
  · cases pw
    · exact ⟨hA, rfl⟩
    · exact ⟨hB, rfl⟩
  · cases pw
    · exact ⟨hA, rfl⟩
    · exact ⟨hB, rfl⟩
  · cases gr
    · exact ⟨hA, rfl⟩
    · exact ⟨hB, rfl⟩
  · cases gr
    · exact ⟨hA, rfl⟩
    · exact ⟨hB, rfl⟩
  · cases he
    · exact ⟨hA, rfl⟩
    · exact ⟨hB, rfl⟩
  · cases he
    · exact ⟨hA, rfl⟩
    · exact ⟨hB, rfl⟩

/-- C18 as stated fails on the code: CopyPwd returns 0 on `pwdEmptyPw`, whose
password and shell are the empty string, and `pw_passwd` and `pw_shell` are not
NULL afterwards; CopyGrp returns 0 on `grpNoMembers`, whose password is empty
and whose member list has no element, and `gr_passwd` and `gr_mem` are not
NULL; CopyHostent returns 0 on `hostA`, whose alias list has no element, and
`h_aliases` is not NULL. -/
theorem empty_field_pointer_not_null :
    pwdEmptyPw.pw_passwd = some [] ∧ pwdEmptyPw.pw_shell = some [] ∧
    (CopyPwd pwdEmptyPw 0 2048 State.blank).ret = 0 ∧
    (CopyPwd pwdEmptyPw 0 2048 State.blank).tgt.pw_passwd = Ref.scratch 3 ∧
    (CopyPwd pwdEmptyPw 0 2048 State.blank).tgt.pw_shell = Ref.scratch 6 ∧
    grpNoMembers.gr_passwd = some [] ∧ grpNoMembers.gr_mem = some [] ∧
    (CopyGrp 8 grpNoMembers 0 2048 State.blank).ret = 0 ∧
    (CopyGrp 8 grpNoMembers 0 2048 State.blank).tgt.gr_passwd = Ref.scratch 3 ∧
    (CopyGrp 8 grpNoMembers 0 2048 State.blank).tgt.gr_mem = Ref.scratch 4 ∧
    hostA.h_aliases = some [] ∧
    (CopyHostent 8 hostA 0 2048 State.blank).ret = 0 ∧
    (CopyHostent 8 hostA 0 2048 State.blank).tgt.h_aliases = Ref.scratch 2 := by
  decide

/-- C18 as amended (null for absent fields only): after CopyPwd, CopyGrp or
CopyHostent returned 0 on a buffer of `0 <= buflen <= INT_MAX` bytes for a
record whose serialized size is at most INT_MAX, a string or array
field pointer of the record is NULL if and only if the source field was absent
(a NULL pointer); a field that was present, the empty string and the array
without elements included, points at the field's copy, which lies inside the
buffer.  For `h_addr_list` only the first part is stated. -/
theorem field_null_iff_absent (sz : Nat) (hsz : 0 < sz) (tp : PasswdSrc) (tg : GroupSrc)
    (th : HostentSrc) (buf buflen : Int) (st : State) (hb : 0 ≤ buflen)
    (hI : buflen ≤ INT_MAX) (hP : pwdSize tp ≤ INT_MAX) (hG : grpSize sz tg ≤ INT_MAX)
    (hH : hostSize sz th ≤ INT_MAX) :
    ((CopyPwd tp buf buflen st).ret = 0 →
      ((CopyPwd tp buf buflen st).tgt.pw_name = Ref.null ↔ tp.pw_name = none) ∧
      ((CopyPwd tp buf buflen st).tgt.pw_passwd = Ref.null ↔ tp.pw_passwd = none) ∧
      ((CopyPwd tp buf buflen st).tgt.pw_dir = Ref.null ↔ tp.pw_dir = none) ∧
      ((CopyPwd tp buf buflen st).tgt.pw_shell = Ref.null ↔ tp.pw_shell = none) ∧
      StrCopiedAt (CopyPwd tp buf buflen st).st.mem tp.pw_name
        (CopyPwd tp buf buflen st).tgt.pw_name buf ∧
      StrCopiedAt (CopyPwd tp buf buflen st).st.mem tp.pw_passwd
        (CopyPwd tp buf buflen st).tgt.pw_passwd (buf + strSize tp.pw_name) ∧
      StrCopiedAt (CopyPwd tp buf buflen st).st.mem tp.pw_dir
        (CopyPwd tp buf buflen st).tgt.pw_dir (buf + (strSize tp.pw_name + strSize tp.pw_passwd)) ∧
      StrCopiedAt (CopyPwd tp buf buflen st).st.mem tp.pw_shell
        (CopyPwd tp buf buflen st).tgt.pw_shell
        (buf + (strSize tp.pw_name + strSize tp.pw_passwd + strSize tp.pw_dir)) ∧
      buf + pwdSize tp ≤ buf + buflen) ∧
    ((CopyGrp sz tg buf buflen st).ret = 0 →
      ((CopyGrp sz tg buf buflen st).tgt.gr_name = Ref.null ↔ tg.gr_name = none) ∧
      ((CopyGrp sz tg buf buflen st).tgt.gr_passwd = Ref.null ↔ tg.gr_passwd = none) ∧
      ((CopyGrp sz tg buf buflen st).tgt.gr_mem = Ref.null ↔ tg.gr_mem = none) ∧
      StrCopiedAt (CopyGrp sz tg buf buflen st).st.mem tg.gr_name
        (CopyGrp sz tg buf buflen st).tgt.gr_name buf ∧
      StrCopiedAt (CopyGrp sz tg buf buflen st).st.mem tg.gr_passwd
        (CopyGrp sz tg buf buflen st).tgt.gr_passwd (buf + strSize tg.gr_name) ∧
      ArrCopiedAt sz (-1) (CopyGrp sz tg buf buflen st).st.mem tg.gr_mem
        (CopyGrp sz tg buf buflen st).tgt.gr_mem (buf + (strSize tg.gr_name + strSize tg.gr_passwd)) ∧
      buf + grpSize sz tg ≤ buf + buflen) ∧
    ((CopyHostent sz th buf buflen st).ret = 0 →
      ((CopyHostent sz th buf buflen st).tgt.h_name = Ref.null ↔ th.h_name = none) ∧
      ((CopyHostent sz th buf buflen st).tgt.h_aliases = Ref.null ↔ th.h_aliases = none) ∧
      ((CopyHostent sz th buf buflen st).tgt.h_addr_list = Ref.null ↔ th.h_addr_list = none) ∧
      StrCopiedAt (CopyHostent sz th buf buflen st).st.mem th.h_name
        (CopyHostent sz th buf buflen st).tgt.h_name buf ∧
      ArrCopiedAt sz (-1) (CopyHostent sz th buf buflen st).st.mem th.h_aliases
        (CopyHostent sz th buf buflen st).tgt.h_aliases (buf + strSize th.h_name) ∧
      buf + strSize th.h_name + arrSize sz (-1) th.h_aliases ≤ buf + buflen) := by
  have P := CopyPwd_spec tp buf buflen st hb hI hP
  have G := CopyGrp_spec sz tg buf buflen st hb hI hG
  have H := CopyHostent_ret sz th buf buflen st hb hI hH
  refine ⟨fun hret => ?_, fun hret => ?_, fun hret => ?_⟩
  · have hfit : pwdSize tp ≤ buflen := by
      by_contra hc
      have := (P.2.2 (by omega)).1
      omega
    obtain ⟨-, -, htgt, a1, a2, a3, a4⟩ := P.2.1 hfit
    have c1 := StrCopiedAt_intro a1
    have c2 := StrCopiedAt_intro a2
    have c3 := StrCopiedAt_intro a3
    have c4 := StrCopiedAt_intro a4
    rw [htgt]
    exact ⟨StrCopiedAt_null_iff c1, StrCopiedAt_null_iff c2, StrCopiedAt_null_iff c3,
      StrCopiedAt_null_iff c4, c1, c2, c3, c4, by omega⟩
  · have hfit : grpSize sz tg ≤ buflen := by
      by_contra hc
      have := (G.2.2 (by omega)).1
      omega
    obtain ⟨-, -, htgt, a1, a2, a3⟩ := G.2.1 hfit
    have c1 := StrCopiedAt_intro a1
    have c2 := StrCopiedAt_intro a2
    have c3 := ArrCopiedAt_intro hsz (a3 hsz)
    rw [htgt]
    exact ⟨StrCopiedAt_null_iff c1, StrCopiedAt_null_iff c2, ArrCopiedAt_null_iff c3,
      c1, c2, c3, by omega⟩
  · have hfit : hostSize sz th ≤ buflen := by
      by_contra hc
      have := (H.2 (by omega)).1
      omega
    obtain ⟨htgt, a1, a2⟩ := CopyHostent_spec sz th buf buflen st hfit hI
    have c1 := StrCopiedAt_intro a1
    have c2 := ArrCopiedAt_intro hsz (a2 hsz)
    have n3 := arrSize_nonneg sz th.h_length th.h_addr_list
    unfold hostSize at hfit
    rw [htgt]
    exact ⟨StrCopiedAt_null_iff c1, ArrCopiedAt_null_iff c2,
      rewritten_arr_null_iff sz hsz _ _ _, c1, c2, by omega⟩

theorem field_null_iff_absent_witness :
    0 < (8 : Nat) ∧ (0 : Int) ≤ 2048 ∧ (2048 : Int) ≤ INT_MAX ∧ pwdSize pwdEmptyPw ≤ INT_MAX ∧
    grpSize 8 grpNoMembers ≤ INT_MAX ∧ hostSize 8 hostA ≤ INT_MAX ∧
    (((CopyPwd pwdEmptyPw (0 : Int) (2048 : Int) State.blank).ret = 0 →
      ((CopyPwd pwdEmptyPw (0 : Int) (2048 : Int) State.blank).tgt.pw_name = Ref.null ↔ pwdEmptyPw.pw_name = none) ∧
      ((CopyPwd pwdEmptyPw (0 : Int) (2048 : Int) State.blank).tgt.pw_passwd = Ref.null ↔ pwdEmptyPw.pw_passwd = none) ∧
      ((CopyPwd pwdEmptyPw (0 : Int) (2048 : Int) State.blank).tgt.pw_dir = Ref.null ↔ pwdEmptyPw.pw_dir = none) ∧
      ((CopyPwd pwdEmptyPw (0 : Int) (2048 : Int) State.blank).tgt.pw_shell = Ref.null ↔ pwdEmptyPw.pw_shell = none) ∧
      StrCopiedAt (CopyPwd pwdEmptyPw (0 : Int) (2048 : Int) State.blank).st.mem pwdEmptyPw.pw_name
        (CopyPwd pwdEmptyPw (0 : Int) (2048 : Int) State.blank).tgt.pw_name (0 : Int) ∧
      StrCopiedAt (CopyPwd pwdEmptyPw (0 : Int) (2048 : Int) State.blank).st.mem pwdEmptyPw.pw_passwd
        (CopyPwd pwdEmptyPw (0 : Int) (2048 : Int) State.blank).tgt.pw_passwd ((0 : Int) + strSize pwdEmptyPw.pw_name) ∧
      StrCopiedAt (CopyPwd pwdEmptyPw (0 : Int) (2048 : Int) State.blank).st.mem pwdEmptyPw.pw_dir
        (CopyPwd pwdEmptyPw (0 : Int) (2048 : Int) State.blank).tgt.pw_dir ((0 : Int) + (strSize pwdEmptyPw.pw_name + strSize pwdEmptyPw.pw_passwd)) ∧
      StrCopiedAt (CopyPwd pwdEmptyPw (0 : Int) (2048 : Int) State.blank).st.mem pwdEmptyPw.pw_shell
        (CopyPwd pwdEmptyPw (0 : Int) (2048 : Int) State.blank).tgt.pw_shell
        ((0 : Int) + (strSize pwdEmptyPw.pw_name + strSize pwdEmptyPw.pw_passwd + strSize pwdEmptyPw.pw_dir)) ∧
      (0 : Int) + pwdSize pwdEmptyPw ≤ (0 : Int) + (2048 : Int)) ∧
    ((CopyGrp (8 : Nat) grpNoMembers (0 : Int) (2048 : Int) State.blank).ret = 0 →
      ((CopyGrp (8 : Nat) grpNoMembers (0 : Int) (2048 : Int) State.blank).tgt.gr_name = Ref.null ↔ grpNoMembers.gr_name = none) ∧
      ((CopyGrp (8 : Nat) grpNoMembers (0 : Int) (2048 : Int) State.blank).tgt.gr_passwd = Ref.null ↔ grpNoMembers.gr_passwd = none) ∧
      ((CopyGrp (8 : Nat) grpNoMembers (0 : Int) (2048 : Int) State.blank).tgt.gr_mem = Ref.null ↔ grpNoMembers.gr_mem = none) ∧
      StrCopiedAt (CopyGrp (8 : Nat) grpNoMembers (0 : Int) (2048 : Int) State.blank).st.mem grpNoMembers.gr_name
        (CopyGrp (8 : Nat) grpNoMembers (0 : Int) (2048 : Int) State.blank).tgt.gr_name (0 : Int) ∧
      StrCopiedAt (CopyGrp (8 : Nat) grpNoMembers (0 : Int) (2048 : Int) State.blank).st.mem grpNoMembers.gr_passwd
        (CopyGrp (8 : Nat) grpNoMembers (0 : Int) (2048 : Int) State.blank).tgt.gr_passwd ((0 : Int) + strSize grpNoMembers.gr_name) ∧
      ArrCopiedAt (8 : Nat) (-1) (CopyGrp (8 : Nat) grpNoMembers (0 : Int) (2048 : Int) State.blank).st.mem grpNoMembers.gr_mem
        (CopyGrp (8 : Nat) grpNoMembers (0 : Int) (2048 : Int) State.blank).tgt.gr_mem ((0 : Int) + (strSize grpNoMembers.gr_name + strSize grpNoMembers.gr_passwd)) ∧
      (0 : Int) + grpSize (8 : Nat) grpNoMembers ≤ (0 : Int) + (2048 : Int)) ∧
    ((CopyHostent (8 : Nat) hostA (0 : Int) (2048 : Int) State.blank).ret = 0 →
      ((CopyHostent (8 : Nat) hostA (0 : Int) (2048 : Int) State.blank).tgt.h_name = Ref.null ↔ hostA.h_name = none) ∧
      ((CopyHostent (8 : Nat) hostA (0 : Int) (2048 : Int) State.blank).tgt.h_aliases = Ref.null ↔ hostA.h_aliases = none) ∧
      ((CopyHostent (8 : Nat) hostA (0 : Int) (2048 : Int) State.blank).tgt.h_addr_list = Ref.null ↔ hostA.h_addr_list = none) ∧
      StrCopiedAt (CopyHostent (8 : Nat) hostA (0 : Int) (2048 : Int) State.blank).st.mem hostA.h_name
        (CopyHostent (8 : Nat) hostA (0 : Int) (2048 : Int) State.blank).tgt.h_name (0 : Int) ∧
      ArrCopiedAt (8 : Nat) (-1) (CopyHostent (8 : Nat) hostA (0 : Int) (2048 : Int) State.blank).st.mem hostA.h_aliases
        (CopyHostent (8 : Nat) hostA (0 : Int) (2048 : Int) State.blank).tgt.h_aliases ((0 : Int) + strSize hostA.h_name) ∧
      (0 : Int) + strSize hostA.h_name + arrSize (8 : Nat) (-1) hostA.h_aliases ≤ (0 : Int) + (2048 : Int))) :=
  ⟨by decide, by decide, by decide, by decide, by decide, by decide,
    field_null_iff_absent 8 (by decide) pwdEmptyPw grpNoMembers hostA 0 2048 State.blank
      (by decide) (by decide) (by decide) (by decide) (by decide)⟩

/-- C19 (packer failure records the out-of-range condition) fails on the code:
CopyString on "hi" with capacity 0 and CopyArray on a one-element array with
capacity 0 return -1, and `errno`, which was 0 before the call, still is 0, not
ERANGE, afterwards. -/
theorem packers_leave_errno_untouched :
    State.blank.errno = 0 ∧ (0 : Int) ≠ ERANGE ∧
    (CopyString.step (some [104, 105]) 0 0 State.blank).1 = -1 ∧
    (CopyString.step (some [104, 105]) 0 0 State.blank).2.errno = 0 ∧
    (CopyArray.step 8 (some [[104, 105]]) (-1) 0 0 State.blank).1 = -1 ∧
    (CopyArray.step 8 (some [[104, 105]]) (-1) 0 0 State.blank).2.errno = 0 := by
  decide

/-- C20 (consumed length never exceeds capacity) fails on the code.  For a
one-element array, `elsize = INT_MAX` and capacity 2048, CopyArray returns
-2147483633, which is neither -1 nor a value in `[0, 2048]`, and it stores to
offset 5000, not below the value returned and not inside the buffer; and
CopyString on a string of 2^31 - 1 characters returns -2147483648. -/
theorem packer_result_outside_capacity :
    CopyArray 8 (some [blob16]) 2147483647 0 2048 Mem.blank =
      (-2147483633, storePtr 8 (storePtr 8 (memcpy Mem.blank 16 blob16 2147483647) 0 (some 16))
        8 none) ∧
    (5000 : Int) ∈ (CopyArray 8 (some [blob16]) 2147483647 0 2048 Mem.blank).2.log ∧
    (CopyString (some hugeStr) 0 2048 Mem.blank).1 = -2147483648 := by
  have h1 : headerExceeds 8 1 2048 = false := by decide
  have h2 : wrapInt ((8 * (1 + 1) : Nat) : Int) = 16 := by decide
  have h3 : wrapInt (16 + 2147483647) = -2147483633 := by decide
  have h4 : ¬ ((2147483647 : Int) < 0) := by decide
  have h5 : ¬ ((-2147483633 : Int) > 2048) := by decide
  have h6 : (2147483647 : Int).toNat = 2147483647 := by decide
  have he : CopyArray 8 (some [blob16]) 2147483647 0 2048 Mem.blank =
      (-2147483633, storePtr 8 (storePtr 8 (memcpy Mem.blank 16 blob16 2147483647) 0 (some 16))
        8 none) := by
    simp only [CopyArray, List.length_singleton, h1, Bool.false_eq_true, if_false, h2,
      CopyArray.loop, h4, h3, h5, h6]
    norm_num
  refine ⟨he, ?_, ?_⟩
  · rw [he]
    have hk : 4984 < (objBytes blob16 2147483647).length := by
      rw [objBytes_length]; decide
    have := mem_log_storeList Mem.blank 16 (objBytes blob16 2147483647) 4984 hk
    rw [show (16 : Int) + ((4984 : Nat) : Int) = 5000 by decide] at this
    exact mem_log_storeList_of_mem _ _ _ _ (mem_log_storeList_of_mem _ _ _ _ this)
  · rw [CopyString_wrapped hugeStr 0 2048 Mem.blank strlen_hugeStr (by decide)]

end TclUnixCompat
